import Mathlib

/-!
The pipeline of `main.go` of voicevox-cli.

A shallow embedding of `src/main.go`: the data model (`Params`, `Mora`,
`AccentPhrases`, `Speakers`, `Styles`, `config`), the JSON decoding and
encoding that `getQuery` and `synth` perform through the struct tags, and the
run of `main` as a function from the configuration and the answers of the
outside world (engine, file system, audio device) to the list of effects it
performs and the way the process ends.
-/

namespace VoicevoxCli

/-! ## Data model -/

/-- A Go `float64`, kept as its IEEE-754 binary64 bit pattern (`bits < 2^64`).
The program never computes with these values: it reads them from the command
line or from JSON, stores them, and writes them to JSON. -/
structure Float64 where
  bits : Nat
deriving DecidableEq, Repr

/-- The zero value of `float64`. -/
def Float64.zero : Float64 := ⟨0⟩

/-- False exactly for NaN and the two infinities (exponent field all ones),
the values `encoding/json` refuses to encode. -/
def Float64.isFinite (f : Float64) : Bool :=
  (f.bits / 2 ^ 52) % 2 ^ 11 != 2047

/-- The binary64 pattern of a natural number, rounding to nearest, ties to
even; `none` when the number is too large for a finite `float64`. -/
def Float64.ofNat? (n : Nat) : Option Nat :=
  if n = 0 then some 0
  else
    let e := Nat.log2 n
    let q :=
      if e ≤ 52 then n * 2 ^ (52 - e)
      else
        let sh := e - 52
        let q := n / 2 ^ sh
        let r := n % 2 ^ sh
        let half := 2 ^ (sh - 1)
        if half < r ∨ (r = half ∧ q % 2 = 1) then q + 1 else q
    let b := (e + 1022) * 2 ^ 52 + q
    if b < 2047 * 2 ^ 52 then some b else none

/-- The `float64` an integer literal reads as (`strconv.ParseFloat`): `neg`
is the minus sign of the literal and `mag` the number its digits spell. The
literal `-0` reads as negative zero. -/
def Float64.ofIntLit? (neg : Bool) (mag : Nat) : Option Float64 :=
  match Float64.ofNat? mag with
  | none => none
  | some b => some ⟨if neg then 2 ^ 63 + b else b⟩

/-- A Go slice. `nil` is the nil slice. `mk elems spare` is a non-nil slice
whose elements are `elems` (so `len` is `elems.length`); `spare` is what the
backing array holds past the length, left there when the slice was cut short.
The program never reads `spare`, but the JSON decoder decodes into it when it
lengthens the slice again. Slots past the length that were never an element
hold zero values and are not listed. -/
inductive Slice (α : Type) where
  | nil
  | mk (elems : List α) (spare : List α)
deriving DecidableEq, Repr

/-- What the backing array of a slice holds, from index 0 on. -/
def Slice.slots {α : Type} : Slice α → List α
  | .nil => []
  | .mk elems spare => elems ++ spare

/-- The struct `Mora`: one mora of an accent phrase. A nil `*string` or
`*float64` is `none`. -/
structure Mora where
  Text : String
  Consonant : Option String
  ConsonantLength : Option Float64
  Vowel : String
  VowelLength : Float64
  Pitch : Float64
deriving DecidableEq, Repr

/-- The struct `AccentPhrases`: one accent phrase of a query. -/
structure AccentPhrases where
  Moras : Slice Mora
  Accent : Int
  PauseMora : Option Mora
  IsInterrogative : Bool
deriving DecidableEq, Repr

/-- The struct `Params`: the query that `getQuery` decodes and `synth` encodes. -/
structure Params where
  AccentPhrases : Slice AccentPhrases
  SpeedScale : Float64
  PitchScale : Float64
  IntonationScale : Float64
  VolumeScale : Float64
  PrePhonemeLength : Float64
  PostPhonemeLength : Float64
  OutputSamplingRate : Int
  OutputStereo : Bool
  Kana : String
deriving DecidableEq, Repr

/-- The struct `Styles`: one style of a speaker. -/
structure Styles where
  ID : Int
  Name : String
deriving DecidableEq, Repr

/-- The element type of `type Speakers []struct`. -/
structure Speaker where
  Name : String
  SpeakerUUID : String
  Styles : List Styles
  Version : String
deriving DecidableEq, Repr

/-- The slice type `Speakers`; `len` and indexing do not tell a nil slice from
an empty one, so a list is enough here. -/
abbrev Speakers := List Speaker

/-- The struct `config`: the values of the command-line flags. -/
structure config where
  endpoint : String
  speaker : Int
  style : Int
  speed : Float64
  intonation : Float64
  volume : Float64
  pitch : Float64
  output : String
deriving DecidableEq, Repr

/-- Zero value of `Mora`. -/
def Mora.zero : Mora := ⟨"", none, none, "", Float64.zero, Float64.zero⟩

/-- Zero value of `AccentPhrases`. -/
def AccentPhrases.zero : AccentPhrases := ⟨.nil, 0, none, false⟩

/-- Zero value of `Params`. -/
def Params.zero : Params :=
  ⟨.nil, Float64.zero, Float64.zero, Float64.zero, Float64.zero, Float64.zero, Float64.zero,
    0, false, ""⟩

/-! ## JSON documents -/

/-- A JSON document as a value tree. Objects keep their members in order,
with whatever keys they carry. A number is kept by what the decoder reads from
it. `int neg mag` is a literal without fraction or exponent: `neg` is its
minus sign and `mag` the number its digits spell, so that `-0` is
`int true 0`. `float f` is any other literal, kept as the `float64` that
`strconv.ParseFloat` reads it as. What the encoder writes for a `float64` is
kept as `float f` whatever its spelling (Go writes 1.0 as `1`): it is read
back as `f`. White space and string escapes are not part of the model. -/
inductive Json where
  | null
  | bool (b : Bool)
  | int (neg : Bool) (mag : Nat)
  | float (f : Float64)
  | str (s : String)
  | arr (xs : List Json)
  | obj (kvs : List (String × Json))

/-- The integer literal the encoder writes for a Go `int`. -/
def Json.ofInt (i : Int) : Json := .int (decide (i < 0)) i.natAbs

/-- Case folding of one rune for key matching. `encoding/json` takes every
rune to the smallest rune of its fold orbit: ASCII letters are upper-cased and
the two non-ASCII runes whose orbit holds an ASCII letter (U+017F, U+212A) go
to that letter. Every other non-ASCII rune goes to a non-ASCII rune; it is left
as it is here, which changes no comparison with a tag, the tags being ASCII. -/
def foldRune (c : Char) : Char :=
  if 97 ≤ c.toNat ∧ c.toNat ≤ 122 then Char.ofNat (c.toNat - 32)
  else if c.toNat = 0x17F then 'S'
  else if c.toNat = 0x212A then 'K'
  else c

/-- The folded form of a key. -/
def foldName (s : String) : List Char := s.data.map foldRune

/-- The struct field a JSON key is decoded into: the field whose tag is the
key exactly, otherwise the field whose tag equals the key under case folding. -/
def fieldOf (tags : List String) (key : String) : Option String :=
  match tags.find? (fun t => t == key) with
  | some t => some t
  | none => tags.find? (fun t => foldName t == foldName key)

/-- Decoding into a `string`. `null` leaves the value as it is. -/
def decodeString (cur : String) : Json → Except String String
  | .null => .ok cur
  | .str s => .ok s
  | _ => .error "json: cannot unmarshal into Go value of type string"

/-- Decoding into a `float64`. -/
def decodeFloat (cur : Float64) : Json → Except String Float64
  | .null => .ok cur
  | .float f => if f.isFinite then .ok f else .error "json: number out of range"
  | .int neg mag =>
    match Float64.ofIntLit? neg mag with
    | some f => .ok f
    | none => .error "json: number out of range"
  | _ => .error "json: cannot unmarshal into Go value of type float64"

/-- Decoding into an `int` (64 bits). -/
def decodeInt (cur : Int) : Json → Except String Int
  | .null => .ok cur
  | .int neg mag =>
    let i : Int := if neg then -(mag : Int) else (mag : Int)
    if -(2 ^ 63) ≤ i ∧ i < 2 ^ 63 then .ok i
    else .error "json: cannot unmarshal number into Go value of type int"
  | _ => .error "json: cannot unmarshal into Go value of type int"

/-- Decoding into a `bool`. -/
def decodeBool (cur : Bool) : Json → Except String Bool
  | .null => .ok cur
  | .bool b => .ok b
  | _ => .error "json: cannot unmarshal into Go value of type bool"

/-- Decoding into a pointer: `null` makes it nil, anything else is decoded
into the pointee (a fresh zero value when the pointer was nil). -/
def decodePtr {α : Type} (zero : α) (dec : α → Json → Except String α) (cur : Option α) :
    Json → Except String (Option α)
  | .null => .ok none
  | j => (dec (cur.getD zero) j).map some

/-- Decoding the elements of an array, one after the other, into the slots of
a backing array: the element at index `i` is decoded into what slot `i` holds,
or into a zero value when the backing array has no such slot. -/
def decodeElems {α : Type} (zero : α) (dec : α → Json → Except String α) :
    List α → List Json → Except String (List α)
  | _, [] => .ok []
  | slots, j :: js =>
    match dec (slots.headD zero) j with
    | .error e => .error e
    | .ok a =>
      match decodeElems zero dec slots.tail js with
      | .error e => .error e
      | .ok as => .ok (a :: as)

/-- Decoding into a slice. `null` makes it nil. An empty array makes it a
fresh empty slice. Any other array is decoded element by element into the
backing array the slice has (`decodeElems`); the slice then has as many
elements as the array, and what the backing array holds past them stays. -/
def decodeSlice {α : Type} (zero : α) (dec : α → Json → Except String α) (cur : Slice α) :
    Json → Except String (Slice α)
  | .null => .ok .nil
  | .arr [] => .ok (.mk [] [])
  | .arr js =>
    (decodeElems zero dec cur.slots js).map (fun xs => .mk xs (cur.slots.drop js.length))
  | _ => .error "json: cannot unmarshal into Go value of slice type"

/-- Decoding the members of an object one after the other into a struct;
`step` decodes one member and is given the struct as it stands. -/
def decodeMembers {α : Type} (step : α → String → Json → Except String α) :
    α → List (String × Json) → Except String α
  | cur, [] => .ok cur
  | cur, (k, v) :: kvs =>
    match step cur k v with
    | .error e => .error e
    | .ok cur' => decodeMembers step cur' kvs

/-- The `json` tags of `Mora`. -/
def Mora.tags : List String :=
  ["text", "consonant", "consonant_length", "vowel", "vowel_length", "pitch"]

/-- One member of a `Mora` object; a key that matches no tag is skipped. -/
def Mora.decodeMember (m : Mora) (key : String) (v : Json) : Except String Mora :=
  match fieldOf Mora.tags key with
  | none => .ok m
  | some tag =>
    if tag = "text" then
      (decodeString m.Text v).map (fun x => { m with Text := x })
    else if tag = "consonant" then
      (decodePtr "" decodeString m.Consonant v).map (fun x => { m with Consonant := x })
    else if tag = "consonant_length" then
      (decodePtr Float64.zero decodeFloat m.ConsonantLength v).map
        (fun x => { m with ConsonantLength := x })
    else if tag = "vowel" then
      (decodeString m.Vowel v).map (fun x => { m with Vowel := x })
    else if tag = "vowel_length" then
      (decodeFloat m.VowelLength v).map (fun x => { m with VowelLength := x })
    else if tag = "pitch" then
      (decodeFloat m.Pitch v).map (fun x => { m with Pitch := x })
    else .ok m

/-- Decoding into a `Mora`. -/
def decodeMora (cur : Mora) : Json → Except String Mora
  | .null => .ok cur
  | .obj kvs => decodeMembers Mora.decodeMember cur kvs
  | _ => .error "json: cannot unmarshal into Go value of type main.Mora"

/-- The `json` tags of `AccentPhrases`. -/
def AccentPhrases.tags : List String :=
  ["moras", "accent", "pause_mora", "is_interrogative"]

/-- One member of an `AccentPhrases` object. -/
def AccentPhrases.decodeMember (a : AccentPhrases) (key : String) (v : Json) :
    Except String AccentPhrases :=
  match fieldOf AccentPhrases.tags key with
  | none => .ok a
  | some tag =>
    if tag = "moras" then
      (decodeSlice Mora.zero decodeMora a.Moras v).map (fun x => { a with Moras := x })
    else if tag = "accent" then
      (decodeInt a.Accent v).map (fun x => { a with Accent := x })
    else if tag = "pause_mora" then
      (decodePtr Mora.zero decodeMora a.PauseMora v).map (fun x => { a with PauseMora := x })
    else if tag = "is_interrogative" then
      (decodeBool a.IsInterrogative v).map (fun x => { a with IsInterrogative := x })
    else .ok a

/-- Decoding into an `AccentPhrases`. -/
def decodeAccentPhrases (cur : AccentPhrases) : Json → Except String AccentPhrases
  | .null => .ok cur
  | .obj kvs => decodeMembers AccentPhrases.decodeMember cur kvs
  | _ => .error "json: cannot unmarshal into Go value of type main.AccentPhrases"

/-- The `json` tags of `Params`. -/
def Params.tags : List String :=
  ["accent_phrases", "speedScale", "pitchScale", "intonationScale", "volumeScale",
    "prePhonemeLength", "postPhonemeLength", "outputSamplingRate", "outputStereo", "kana"]

/-- One member of a `Params` object. -/
def Params.decodeMember (p : Params) (key : String) (v : Json) : Except String Params :=
  match fieldOf Params.tags key with
  | none => .ok p
  | some tag =>
    if tag = "accent_phrases" then
      (decodeSlice AccentPhrases.zero decodeAccentPhrases p.AccentPhrases v).map
        (fun x => { p with AccentPhrases := x })
    else if tag = "speedScale" then
      (decodeFloat p.SpeedScale v).map (fun x => { p with SpeedScale := x })
    else if tag = "pitchScale" then
      (decodeFloat p.PitchScale v).map (fun x => { p with PitchScale := x })
    else if tag = "intonationScale" then
      (decodeFloat p.IntonationScale v).map (fun x => { p with IntonationScale := x })
    else if tag = "volumeScale" then
      (decodeFloat p.VolumeScale v).map (fun x => { p with VolumeScale := x })
    else if tag = "prePhonemeLength" then
      (decodeFloat p.PrePhonemeLength v).map (fun x => { p with PrePhonemeLength := x })
    else if tag = "postPhonemeLength" then
      (decodeFloat p.PostPhonemeLength v).map (fun x => { p with PostPhonemeLength := x })
    else if tag = "outputSamplingRate" then
      (decodeInt p.OutputSamplingRate v).map (fun x => { p with OutputSamplingRate := x })
    else if tag = "outputStereo" then
      (decodeBool p.OutputStereo v).map (fun x => { p with OutputStereo := x })
    else if tag = "kana" then
      (decodeString p.Kana v).map (fun x => { p with Kana := x })
    else .ok p

/-- The decoding in `getQuery`: `var params *Params` followed by
`Decode(&params)`. `null` leaves the pointer nil; an object allocates a
`Params` and fills it member by member. -/
def decodeParams : Json → Except String (Option Params)
  | .null => .ok none
  | .obj kvs => (decodeMembers Params.decodeMember Params.zero kvs).map some
  | _ => .error "json: cannot unmarshal into Go value of type main.Params"

/-- Encoding a `float64`: NaN and the infinities are an error. -/
def encodeFloat (f : Float64) : Except String Json :=
  if f.isFinite then .ok (.float f) else .error "json: unsupported value"

/-- Encoding a pointer: nil is `null`. -/
def encodePtr {α : Type} (enc : α → Except String Json) : Option α → Except String Json
  | none => .ok .null
  | some a => enc a

/-- Encoding the elements of a slice in order. -/
def encodeElems {α : Type} (enc : α → Except String Json) : List α → Except String (List Json)
  | [] => .ok []
  | a :: as =>
    match enc a with
    | .error e => .error e
    | .ok j =>
      match encodeElems enc as with
      | .error e => .error e
      | .ok js => .ok (j :: js)

/-- Encoding a slice: nil is `null`, a non-nil slice the array of its elements. -/
def encodeSlice {α : Type} (enc : α → Except String Json) : Slice α → Except String Json
  | .nil => .ok .null
  | .mk xs _ => (encodeElems enc xs).map Json.arr

/-- Encoding a `Mora`: every field, in declaration order, under its tag. -/
def encodeMora (m : Mora) : Except String Json := do
  let cl ← encodePtr encodeFloat m.ConsonantLength
  let vl ← encodeFloat m.VowelLength
  let pi ← encodeFloat m.Pitch
  pure (.obj [("text", .str m.Text),
    ("consonant", match m.Consonant with | none => .null | some s => .str s),
    ("consonant_length", cl), ("vowel", .str m.Vowel), ("vowel_length", vl), ("pitch", pi)])

/-- Encoding an `AccentPhrases`. -/
def encodeAccentPhrases (a : AccentPhrases) : Except String Json := do
  let ms ← encodeSlice encodeMora a.Moras
  let pm ← encodePtr encodeMora a.PauseMora
  pure (.obj [("moras", ms), ("accent", Json.ofInt a.Accent), ("pause_mora", pm),
    ("is_interrogative", .bool a.IsInterrogative)])

/-- Encoding a `Params` value. -/
def encodeParamsValue (p : Params) : Except String Json := do
  let aps ← encodeSlice encodeAccentPhrases p.AccentPhrases
  let speed ← encodeFloat p.SpeedScale
  let pitch ← encodeFloat p.PitchScale
  let into ← encodeFloat p.IntonationScale
  let vol ← encodeFloat p.VolumeScale
  let pre ← encodeFloat p.PrePhonemeLength
  let post ← encodeFloat p.PostPhonemeLength
  pure (.obj [("accent_phrases", aps), ("speedScale", speed), ("pitchScale", pitch),
    ("intonationScale", into), ("volumeScale", vol), ("prePhonemeLength", pre),
    ("postPhonemeLength", post), ("outputSamplingRate", Json.ofInt p.OutputSamplingRate),
    ("outputStereo", .bool p.OutputStereo), ("kana", .str p.Kana)])

/-- The encoding in `synth`: `json.MarshalIndent(params, "", "  ")` on a
`*Params`; a nil pointer is `null`. -/
def encodeParams : Option Params → Except String Json :=
  encodePtr encodeParamsValue

/-! ## The outside world and the effects of a run -/

/-- A byte sequence. -/
abbrev Bytes := List (Fin 256)

/-- An HTTP request as the program builds it: method, URL, the parameters it
adds to the query string, the headers it adds, and the JSON body if any. -/
structure Request where
  method : String
  url : String
  query : List (String × String)
  header : List (String × String)
  body : Option Json

/-- What the program does to the outside world, in order. -/
inductive Event where
  /-- A request handed to the HTTP client. -/
  | request (r : Request)
  /-- A line written by `log.Println`. -/
  | log (line : String)
  /-- A call `ioutil.WriteFile(name, data, perm)`. -/
  | writeFile (name : String) (data : Bytes) (perm : Nat)
  /-- A call `oto.NewContext(sampleRate, channelNum, bitDepthInBytes, bufferSizeInBytes)`. -/
  | newContext (sampleRate channelNum bitDepthInBytes bufferSizeInBytes : Int)
  /-- The bytes handed to the player by `io.Copy(p, bytes.NewReader(b))`. -/
  | copyToPlayer (data : Bytes)
  /-- A call `p.Close()`. -/
  | playerClose
  /-- A call `ctx.Close()`. -/
  | contextClose

/-- How the process ends. -/
inductive Outcome where
  /-- The function `main` returns. -/
  | done
  /-- A call of `log.Fatal` with this message. -/
  | fatal (msg : String)
  /-- A Go runtime panic. -/
  | panic (msg : String)
deriving DecidableEq, Repr

/-- The answers of everything outside the program. An `Except.error` or a
`some` error carries the message of the Go `error` value. -/
structure World where
  /-- The error of `http.NewRequest` for a URL, if it does not parse. -/
  urlError : String → Option String
  /-- The answer to `GET <endpoint>/speakers` after decoding into `Speakers`,
  or the error of the request or of the decoding. -/
  speakers : Request → Except String Speakers
  /-- The JSON document in the answer to the `audio_query` request, or the
  error of the request or of reading a document from the body. -/
  audioQuery : Request → Except String Json
  /-- The whole body of the answer to the `synthesis` request, or the error
  of the request or of reading the body. -/
  synthesis : Request → Except String Bytes
  /-- The error of `ioutil.WriteFile`, if any. -/
  writeFile : String → Bytes → Nat → Option String
  /-- The error of `oto.NewContext`, if any. -/
  newContext : Int → Int → Int → Int → Option String
  /-- The error of copying the bytes to the player, if any. -/
  copyToPlayer : Bytes → Option String
  /-- The error of `p.Close()`, if any. -/
  playerClose : Option String

/-- Go indexing `xs[i]` with an `int` index: `none` is the runtime panic
"index out of range". -/
def index? {α : Type} (xs : List α) (i : Int) : Option α :=
  if i < 0 then none else xs[i.toNat]?

/-- Go slicing `b[low:]` with a constant `low`: `none` is the runtime panic
"slice bounds out of range". -/
def sliceFrom? (b : Bytes) (low : Nat) : Option Bytes :=
  if low ≤ b.length then some (b.drop low) else none

/-- The decimal form of an `int`, as `strconv.Itoa` gives it. -/
def Itoa (i : Int) : String := toString i

/-- The function `getSpeakers(cfg config) Speakers`; an error is the argument of the
`log.Fatal` inside it. -/
def getSpeakers (w : World) (cfg : config) : List Event × Except String Speakers :=
  let req : Request := ⟨"GET", cfg.endpoint ++ "/speakers", [], [], none⟩
  ([.request req], w.speakers req)

/-- The function `getQuery(cfg config, id int, text string) (*Params, error)`:
the request is built, sent, and the document of the answer is decoded. -/
def getQuery (w : World) (cfg : config) (id : Int) (text : String) :
    List Event × Except String (Option Params) :=
  let url := cfg.endpoint ++ "/audio_query"
  match w.urlError url with
  | some e => ([], .error e)
  | none =>
    let req : Request := ⟨"POST", url, [("speaker", Itoa id), ("text", text)], [], none⟩
    match w.audioQuery req with
    | .error e => ([.request req], .error e)
    | .ok doc => ([.request req], decodeParams doc)

/-- The function `synth(cfg config, id int, params *Params) ([]byte, error)`:
the query is encoded first, then the request is built and sent, and the whole
body of the answer is returned. -/
def synth (w : World) (cfg : config) (id : Int) (params : Option Params) :
    List Event × Except String Bytes :=
  match encodeParams params with
  | .error e => ([], .error e)
  | .ok b =>
    let url := cfg.endpoint ++ "/synthesis"
    match w.urlError url with
    | some e => ([], .error e)
    | none =>
      let req : Request :=
        ⟨"POST", url, [("speaker", Itoa id)],
          [("Accept", "audio/wav"), ("Content-Type", "application/json")], some b⟩
      ([.request req], w.synthesis req)

/-- The function `playback(params *Params, b []byte) error`, called with a non-nil
`params`; the result is the returned error, if any. -/
def playback (w : World) (params : Params) (b : Bytes) : List Event × Option String :=
  let ch : Int := if params.OutputStereo then 2 else 1
  let opened : Event := .newContext params.OutputSamplingRate ch 2 3200
  match w.newContext params.OutputSamplingRate ch 2 3200 with
  | some e => ([opened], some e)
  | none =>
    match w.copyToPlayer b with
    | some e => ([opened, .copyToPlayer b, .contextClose], some e)
    | none =>
      match w.playerClose with
      | some e => ([opened, .copyToPlayer b, .playerClose, .contextClose], some e)
      | none => ([opened, .copyToPlayer b, .playerClose, .contextClose], none)

/-- The selection of `main` (the two range checks and the two index
expressions): the speaker and the style picked, or the way the run stops. -/
def selectStyle (speakers : Speakers) (speaker style : Int) : Except Outcome (Speaker × Styles) :=
  if speaker ≥ (speakers.length : Int) then .error (.fatal "speaker not found")
  else
    match index? speakers speaker with
    | none => .error (.panic "index out of range")
    | some spk =>
      if style ≥ (spk.Styles.length : Int) then .error (.fatal "style not found")
      else
        match index? spk.Styles style with
        | none => .error (.panic "index out of range")
        | some sty => .ok (spk, sty)

/-- The four assignments of `main` after `getQuery`. -/
def applyOverrides (cfg : config) (params : Params) : Params :=
  { params with
    SpeedScale := cfg.speed
    PitchScale := cfg.pitch
    IntonationScale := cfg.intonation
    VolumeScale := cfg.volume }

/-- The end of `main`: what is done with the bytes `b` returned by `synth`. -/
def output (w : World) (cfg : config) (params : Params) (b : Bytes) : List Event × Outcome :=
  if cfg.output.length > 0 then
    ([.writeFile cfg.output b 0o644],
      match w.writeFile cfg.output b 0o644 with
      | some e => .fatal e
      | none => .done)
  else
    match sliceFrom? b 44 with
    | none => ([], .panic "slice bounds out of range")
    | some tail =>
      let r := playback w params tail
      (r.1,
        match r.2 with
        | some e => .fatal e
        | none => .done)

/-- The function `main()`, after flag parsing: `cfg` holds the flag values and `args`
is `flag.Args()`. The result is the list of effects and the end of the run. -/
def main (w : World) (cfg : config) (args : List String) : List Event × Outcome :=
  let r1 := getSpeakers w cfg
  match r1.2 with
  | .error e => (r1.1, .fatal e)
  | .ok speakers =>
    match selectStyle speakers cfg.speaker cfg.style with
    | .error stop => (r1.1, stop)
    | .ok (spk, sty) =>
      let spkID := sty.ID
      let ev2 := r1.1 ++ [.log (spk.Name ++ " " ++ sty.Name ++ " " ++ Itoa spkID)]
      let r3 := getQuery w cfg spkID (" ".intercalate args)
      match r3.2 with
      | .error e => (ev2 ++ r3.1, .fatal e)
      | .ok none => (ev2 ++ r3.1, .panic "nil pointer dereference")
      | .ok (some params) =>
        let params := applyOverrides cfg params
        let r4 := synth w cfg spkID (some params)
        match r4.2 with
        | .error e => (ev2 ++ r3.1 ++ r4.1, .fatal e)
        | .ok b =>
          let r5 := output w cfg params b
          (ev2 ++ r3.1 ++ r4.1 ++ r5.1, r5.2)

/-! ## Reading a list of effects -/

/-- The requests among the effects, in order. -/
def requests (evs : List Event) : List Request :=
  evs.filterMap (fun e => match e with | .request r => some r | _ => none)

/-- The files written among the effects: name and contents, in order. -/
def written (evs : List Event) : List (String × Bytes) :=
  evs.filterMap (fun e => match e with | .writeFile n d _ => some (n, d) | _ => none)

/-- The parameters of the `oto.NewContext` calls among the effects. -/
def opened (evs : List Event) : List (Int × Int × Int × Int) :=
  evs.filterMap (fun e => match e with | .newContext r c d s => some (r, c, d, s) | _ => none)

/-- The byte sequences handed to the player among the effects, in order. -/
def played (evs : List Event) : List Bytes :=
  evs.filterMap (fun e => match e with | .copyToPlayer d => some d | _ => none)

/-- True of the effects on the audio device. -/
def Event.onDevice : Event → Bool
  | .newContext _ _ _ _ => true
  | .copyToPlayer _ => true
  | .playerClose => true
  | .contextClose => true
  | _ => false

/-- The request `getSpeakers` sends. -/
def speakersRequest (cfg : config) : Request :=
  ⟨"GET", cfg.endpoint ++ "/speakers", [], [], none⟩

/-- The request `getQuery` sends for a style id and a text. -/
def audioQueryRequest (cfg : config) (id : Int) (text : String) : Request :=
  ⟨"POST", cfg.endpoint ++ "/audio_query", [("speaker", Itoa id), ("text", text)], [], none⟩

/-- The request `synth` sends for a style id and an encoded query. -/
def synthesisRequest (cfg : config) (id : Int) (body : Json) : Request :=
  ⟨"POST", cfg.endpoint ++ "/synthesis", [("speaker", Itoa id)],
    [("Accept", "audio/wav"), ("Content-Type", "application/json")], some body⟩

/-! ## Concrete inputs -/

/-- The directory of the end-to-end scenario: one speaker with one style of id 7. -/
def exampleDir : Speakers :=
  [⟨"A", "7ffcb7ce-00ec-4bdc-82cd-45a8889e43ff", [⟨7, "normal"⟩], "0.14.0"⟩]

/-- The bit pattern of 1.0. -/
def one : Float64 := ⟨0x3FF0000000000000⟩

/-- A configuration with the default flag values but for the two indices and
the output path. -/
def exampleCfg (speaker style : Int) (out : String) : config :=
  ⟨"http://localhost:50021", speaker, style, one, one, one, Float64.zero, out⟩

/-- The bit pattern of 0.1. -/
def tenth : Float64 := ⟨0x3FB999999999999A⟩

/-- A query document with exactly the fields of `Params`. -/
def exampleDoc : Json :=
  .obj [("accent_phrases", .arr [.obj [
      ("moras", .arr [.obj [("text", .str "ha"), ("consonant", .str "h"),
        ("consonant_length", .float tenth), ("vowel", .str "a"), ("vowel_length", .float tenth),
        ("pitch", .float ⟨0x4016000000000000⟩)]]),
      ("accent", .int false 1), ("pause_mora", .null), ("is_interrogative", .bool false)]]),
    ("speedScale", .float one), ("pitchScale", .float Float64.zero),
    ("intonationScale", .float one), ("volumeScale", .float one),
    ("prePhonemeLength", .float tenth), ("postPhonemeLength", .float tenth),
    ("outputSamplingRate", .int false 24000), ("outputStereo", .bool false), ("kana", .str "ha")]

/-- The structure `exampleDoc` decodes into. -/
def exampleParams : Params :=
  { AccentPhrases := .mk [
      { Moras := .mk [⟨"ha", some "h", some tenth, "a", tenth, ⟨0x4016000000000000⟩⟩] []
        Accent := 1
        PauseMora := none
        IsInterrogative := false }] []
    SpeedScale := one
    PitchScale := Float64.zero
    IntonationScale := one
    VolumeScale := one
    PrePhonemeLength := tenth
    PostPhonemeLength := tenth
    OutputSamplingRate := 24000
    OutputStereo := false
    Kana := "ha" }

/-- The members of `exampleDoc` followed by one member that `Params` does not
declare. -/
def exampleDocExtra : Json :=
  match exampleDoc with
  | .obj kvs => .obj (kvs ++ [("pauseLengthScale", .float one)])
  | j => j

/-- The keys of the members of a document that is an object. -/
def Json.keys : Json → List String
  | .obj kvs => kvs.map Prod.fst
  | _ => []

/-- A waveform of 10 bytes, shorter than a WAV header. -/
def shortWave : Bytes := List.replicate 10 0

/-- A waveform of 48 bytes: 44 header bytes and four sample bytes. -/
def longWave : Bytes := List.replicate 44 0 ++ [1, 2, 3, 4]

/-- A world in which every call succeeds: the engine serves `exampleDir` and
`exampleDoc`, and answers the synthesis request with `wave`. -/
def exampleWorld (wave : Bytes) : World where
  urlError := fun _ => none
  speakers := fun _ => .ok exampleDir
  audioQuery := fun _ => .ok exampleDoc
  synthesis := fun _ => .ok wave
  writeFile := fun _ _ _ => none
  newContext := fun _ _ _ _ => none
  copyToPlayer := fun _ => none
  playerClose := none

/-! ## Values the encoder accepts, and the documents it writes -/

/-- True when the integer fits a Go `int` (64 bits). -/
def inInt64 (i : Int) : Bool := decide (-(2 ^ 63) ≤ i ∧ i < 2 ^ 63)

/-- True when `p` holds of everything the backing array of the slice holds. -/
def Slice.all {α : Type} (p : α → Bool) : Slice α → Bool
  | .nil => true
  | .mk elems spare => elems.all p && spare.all p

/-- True of the `Mora` values the encoder accepts: every float is finite. -/
def Mora.valid (m : Mora) : Bool :=
  (match m.ConsonantLength with
    | none => true
    | some f => f.isFinite) && m.VowelLength.isFinite && m.Pitch.isFinite

/-- True of the `AccentPhrases` values that hold valid moras and a 64-bit `Accent`. -/
def AccentPhrases.valid (a : AccentPhrases) : Bool :=
  a.Moras.all Mora.valid && inInt64 a.Accent &&
  (match a.PauseMora with
    | none => true
    | some m => m.valid)

/-- True of the `Params` values whose floats are all finite and whose integers
fit 64 bits. -/
def Params.valid (p : Params) : Bool :=
  p.AccentPhrases.all AccentPhrases.valid &&
  p.SpeedScale.isFinite && p.PitchScale.isFinite && p.IntonationScale.isFinite &&
  p.VolumeScale.isFinite && p.PrePhonemeLength.isFinite && p.PostPhonemeLength.isFinite &&
  inInt64 p.OutputSamplingRate

/-- The slice with the same length and with `f` of each element, on a backing
array that holds nothing past the length. -/
def Slice.trim {α : Type} (f : α → α) : Slice α → Slice α
  | .nil => .nil
  | .mk elems _ => .mk (elems.map f) []

/-- The accent phrase with the same fields, its `Moras` holding the same moras
and nothing past its length. -/
def AccentPhrases.trim (a : AccentPhrases) : AccentPhrases :=
  { a with Moras := a.Moras.trim id }

/-- The query with the same fields, every slice in it holding the same
elements and nothing past its length. -/
def Params.trim (p : Params) : Params :=
  { p with AccentPhrases := p.AccentPhrases.trim AccentPhrases.trim }

/-- The values of the members of a document that is an object, in order. -/
def Json.values : Json → List Json
  | .obj kvs => kvs.map Prod.snd
  | _ => []

/-- True of `null`. -/
def Json.isNull : Json → Bool
  | .null => true
  | _ => false

/-- True of a string. -/
def Json.isStr : Json → Bool
  | .str _ => true
  | _ => false

/-- True of `true` and `false`. -/
def Json.isBool : Json → Bool
  | .bool _ => true
  | _ => false

/-- True of a number kept as a finite `float64`. -/
def Json.isFiniteFloat : Json → Bool
  | .float f => f.isFinite
  | _ => false

/-- True of an integer literal that fits 64 bits and is not `-0`. -/
def Json.isInt64 : Json → Bool
  | .int neg mag => inInt64 (if neg then -(mag : Int) else (mag : Int)) && !(neg && mag == 0)
  | _ => false

/-- True of an array all of whose elements satisfy `p`. -/
def Json.isArrayOf (p : Json → Bool) : Json → Bool
  | .arr xs => xs.all p
  | _ => false

/-- True of an object whose members are exactly the six fields of `Mora`, in
declaration order, each with a value of the kind the encoder writes for it. -/
def isMoraWire (j : Json) : Bool :=
  decide (j.keys = Mora.tags) &&
  match j.values with
  | [t, c, cl, v, vl, p] =>
    t.isStr && (c.isNull || c.isStr) && (cl.isNull || cl.isFiniteFloat) && v.isStr &&
      vl.isFiniteFloat && p.isFiniteFloat
  | _ => false

/-- True of an object whose members are exactly the four fields of
`AccentPhrases`, in declaration order, the moras being `null` or an array of
objects with exactly the fields of `Mora`, and likewise below. -/
def isAccentPhrasesWire (j : Json) : Bool :=
  decide (j.keys = AccentPhrases.tags) &&
  match j.values with
  | [ms, a, pm, q] =>
    (ms.isNull || ms.isArrayOf isMoraWire) && a.isInt64 && (pm.isNull || isMoraWire pm) &&
      q.isBool
  | _ => false

/-- True of an object whose members are exactly the ten fields of `Params`, in
declaration order, the accent phrases being `null` or an array of objects with
exactly the fields of `AccentPhrases`, and likewise below: a document in which
no object, at any depth, has a member that the structures do not declare. -/
def isParamsWire (j : Json) : Bool :=
  decide (j.keys = Params.tags) &&
  match j.values with
  | [aps, sp, pi, it, vo, pre, post, rate, st, ka] =>
    (aps.isNull || aps.isArrayOf isAccentPhrasesWire) && sp.isFiniteFloat &&
      pi.isFiniteFloat && it.isFiniteFloat && vo.isFiniteFloat && pre.isFiniteFloat &&
      post.isFiniteFloat && rate.isInt64 && st.isBool && ka.isStr
  | _ => false

/-- The world of `exampleWorld shortWave`, but for the audio_query answer,
which carries one member more than `Params` declares. -/
def extraWorld : World :=
  { exampleWorld shortWave with audioQuery := fun _ => .ok exampleDocExtra }

/-- The document `exampleDoc` with three members that the structures do not
declare: one in the query, one in its accent phrase and one in its mora. -/
def exampleDocNested : Json :=
  .obj [("accent_phrases", .arr [.obj [
      ("moras", .arr [.obj [("text", .str "ha"), ("consonant", .str "h"),
        ("consonant_length", .float tenth), ("vowel", .str "a"), ("vowel_length", .float tenth),
        ("pitch", .float ⟨0x4016000000000000⟩), ("stress", .int false 2)]]),
      ("accent", .int false 1), ("pause_mora", .null), ("is_interrogative", .bool false),
      ("emphasis", .bool true)]]),
    ("speedScale", .float one), ("pitchScale", .float Float64.zero),
    ("intonationScale", .float one), ("volumeScale", .float one),
    ("prePhonemeLength", .float tenth), ("postPhonemeLength", .float tenth),
    ("outputSamplingRate", .int false 24000), ("outputStereo", .bool false),
    ("kana", .str "ha"), ("pauseLengthScale", .float one)]

/-- A document in which the key `accent_phrases` occurs twice: the second
array is decoded into the elements the first one left. -/
def exampleDocRepeated : Json :=
  .obj [("accent_phrases", .arr [
      .obj [("moras", .arr [.obj [("text", .str "ha"), ("vowel", .str "a")]]),
        ("accent", .int false 5), ("is_interrogative", .bool true)],
      .obj [("accent", .int false 6)]]),
    ("accent_phrases", .arr [.obj []])]

/-- The structure `exampleDocRepeated` decodes into: the one accent phrase is
the first element of the first array, untouched by the empty object of the
second, and the backing array still holds the second element of the first. -/
def exampleParamsRepeated : Params :=
  { Params.zero with
    AccentPhrases := .mk
      [{ Moras := .mk [{ Mora.zero with Text := "ha", Vowel := "a" }] []
         Accent := 5
         PauseMora := none
         IsInterrogative := true }]
      [{ AccentPhrases.zero with Accent := 6 }] }

/-! ## Decimal numerals -/

/-- The value of a decimal digit. -/
def digitValue (c : Char) : Option Nat :=
  if 48 ≤ c.toNat ∧ c.toNat ≤ 57 then some (c.toNat - 48) else none

/-- The number a list of decimal digits spells, read after the digits that
spelt `acc`; `none` when a character is not a digit. -/
def parseDigits : List Char → Nat → Option Nat
  | [], acc => some acc
  | c :: cs, acc =>
    match digitValue c with
    | none => none
    | some d => parseDigits cs (acc * 10 + d)

/-- The integer a string spells in decimal: one or more digits, or a minus
sign followed by one or more digits. -/
def Atoi (s : String) : Option Int :=
  match s.data with
  | [] => none
  | c :: cs =>
    if c = '-' then
      (if cs = [] then none else (parseDigits cs 0).map (fun n => -(n : Int)))
    else (parseDigits (c :: cs) 0).map (fun n => (n : Int))

/-! ## Lemmas on the pieces of a run -/

theorem index?_natCast {α : Type} (xs : List α) (n : Nat) : index? xs (n : Int) = xs[n]? := by
  simp [index?]

theorem selectStyle_speaker_not_found (dir : Speakers) (s t : Int)
    (h : (dir.length : Int) ≤ s) :
    selectStyle dir s t = .error (.fatal "speaker not found") := by
  unfold selectStyle
  rw [if_pos (by omega)]

theorem selectStyle_style_not_found (dir : Speakers) (s t : Int) (spk : Speaker)
    (h0 : 0 ≤ s) (hspk : dir[s.toNat]? = some spk) (h : (spk.Styles.length : Int) ≤ t) :
    selectStyle dir s t = .error (.fatal "style not found") := by
  have hlt : s.toNat < dir.length := by
    rcases List.getElem?_eq_some_iff.mp hspk with ⟨hl, -⟩
    exact hl
  have h1 : ¬ (s ≥ (dir.length : Int)) := by omega
  have h2 : index? dir s = some spk := by
    unfold index?
    rw [if_neg (by omega)]
    exact hspk
  unfold selectStyle
  rw [if_neg h1, h2]
  simp only []
  rw [if_pos (by omega)]

theorem main_stops_on_selection (w : World) (cfg : config) (args : List String) (dir : Speakers)
    (stop : Outcome) (hdir : w.speakers (speakersRequest cfg) = .ok dir)
    (hsel : selectStyle dir cfg.speaker cfg.style = .error stop) :
    main w cfg args = ([.request (speakersRequest cfg)], stop) := by
  have hg : getSpeakers w cfg = ([.request (speakersRequest cfg)], .ok dir) := by
    simp only [getSpeakers]
    rw [← hdir]
    rfl
  unfold main
  rw [hg]
  simp only []
  rw [hsel]

theorem url_speakers_ne (ep : String) : ep ++ "/speakers" ≠ ep ++ "/synthesis" := by
  intro h
  have h2 := congrArg String.data h
  simp only [String.data_append, List.append_cancel_left_eq] at h2
  exact absurd h2 (by decide)

theorem url_audio_query_ne (ep : String) : ep ++ "/audio_query" ≠ ep ++ "/synthesis" := by
  intro h
  have h2 := congrArg String.data h
  simp only [String.data_append, List.append_cancel_left_eq] at h2
  exact absurd h2 (by decide)

theorem playback_requests (w : World) (p : Params) (b : Bytes) :
    requests (playback w p b).1 = [] := by
  unfold playback
  dsimp only
  repeat' split
  all_goals rfl

theorem output_requests (w : World) (cfg : config) (p : Params) (b : Bytes) :
    requests (output w cfg p b).1 = [] := by
  unfold output
  split
  · rfl
  · split
    · rfl
    · exact playback_requests w p _

theorem getQuery_events (w : World) (cfg : config) (id : Int) (text : String) :
    ((getQuery w cfg id text).1 = [] ∧ ∃ e, (getQuery w cfg id text).2 = .error e) ∨
      (getQuery w cfg id text).1 = [.request (audioQueryRequest cfg id text)] := by
  unfold getQuery
  dsimp only
  split
  · exact Or.inl ⟨rfl, _, rfl⟩
  · split <;> exact Or.inr rfl

theorem synth_events (w : World) (cfg : config) (id : Int) (params : Option Params) :
    ((synth w cfg id params).1 = [] ∧ ∃ e, (synth w cfg id params).2 = .error e) ∨
      ∃ body, encodeParams params = .ok body ∧
        (synth w cfg id params).1 = [.request (synthesisRequest cfg id body)] := by
  unfold synth
  split
  · exact Or.inl ⟨rfl, _, rfl⟩
  · dsimp only
    split
    · exact Or.inl ⟨rfl, _, rfl⟩
    · exact Or.inr ⟨_, by assumption, rfl⟩


theorem requests_append (xs ys : List Event) : requests (xs ++ ys) = requests xs ++ requests ys := by
  simp [requests]

theorem main_speakers_error (w : World) (cfg : config) (args : List String) (e : String)
    (hdir : w.speakers (speakersRequest cfg) = .error e) :
    main w cfg args = ([.request (speakersRequest cfg)], .fatal e) := by
  have hg2 : (getSpeakers w cfg).2 = .error e := hdir
  unfold main
  dsimp only
  rw [hg2]
  rfl

theorem main_query_stops (w : World) (cfg : config) (args : List String) (dir : Speakers)
    (spk : Speaker) (sty : Styles)
    (hdir : w.speakers (speakersRequest cfg) = .ok dir)
    (hsel : selectStyle dir cfg.speaker cfg.style = .ok (spk, sty))
    (hq : ∀ p, (getQuery w cfg sty.ID (" ".intercalate args)).2 ≠ .ok (some p)) :
    (main w cfg args).1 =
      [.request (speakersRequest cfg),
        .log (spk.Name ++ " " ++ sty.Name ++ " " ++ Itoa sty.ID)] ++
        (getQuery w cfg sty.ID (" ".intercalate args)).1 := by
  have hg2 : (getSpeakers w cfg).2 = .ok dir := hdir
  unfold main
  dsimp only
  rw [hg2]
  dsimp only
  rw [hsel]
  dsimp only
  split
  · rfl
  · rfl
  · rename_i p hp
    exact absurd hp (hq p)

theorem main_synth_error (w : World) (cfg : config) (args : List String) (dir : Speakers)
    (spk : Speaker) (sty : Styles) (p : Params) (e : String)
    (hdir : w.speakers (speakersRequest cfg) = .ok dir)
    (hsel : selectStyle dir cfg.speaker cfg.style = .ok (spk, sty))
    (hq : (getQuery w cfg sty.ID (" ".intercalate args)).2 = .ok (some p))
    (hs : (synth w cfg sty.ID (some (applyOverrides cfg p))).2 = .error e) :
    main w cfg args =
      ([.request (speakersRequest cfg),
        .log (spk.Name ++ " " ++ sty.Name ++ " " ++ Itoa sty.ID)] ++
        (getQuery w cfg sty.ID (" ".intercalate args)).1 ++
        (synth w cfg sty.ID (some (applyOverrides cfg p))).1, .fatal e) := by
  have hg2 : (getSpeakers w cfg).2 = .ok dir := hdir
  unfold main
  dsimp only
  rw [hg2]
  dsimp only
  rw [hsel]
  dsimp only
  rw [hq]
  dsimp only
  rw [hs]
  rfl

theorem main_past_synth (w : World) (cfg : config) (args : List String) (dir : Speakers)
    (spk : Speaker) (sty : Styles) (p : Params) (b : Bytes)
    (hdir : w.speakers (speakersRequest cfg) = .ok dir)
    (hsel : selectStyle dir cfg.speaker cfg.style = .ok (spk, sty))
    (hq : (getQuery w cfg sty.ID (" ".intercalate args)).2 = .ok (some p))
    (hs : (synth w cfg sty.ID (some (applyOverrides cfg p))).2 = .ok b) :
    main w cfg args =
      ([.request (speakersRequest cfg),
        .log (spk.Name ++ " " ++ sty.Name ++ " " ++ Itoa sty.ID)] ++
        (getQuery w cfg sty.ID (" ".intercalate args)).1 ++
        (synth w cfg sty.ID (some (applyOverrides cfg p))).1 ++
        (output w cfg (applyOverrides cfg p) b).1, (output w cfg (applyOverrides cfg p) b).2) := by
  have hg2 : (getSpeakers w cfg).2 = .ok dir := hdir
  unfold main
  dsimp only
  rw [hg2]
  dsimp only
  rw [hsel]
  dsimp only
  rw [hq]
  dsimp only
  rw [hs]
  rfl


theorem length_pos_of_ne_empty (s : String) (h : s ≠ "") : 0 < s.length := by
  cases s with
  | mk d =>
    cases d with
    | nil => exact absurd rfl h
    | cons c cs => simp [String.length]

theorem getQuery_ok_events (w : World) (cfg : config) (id : Int) (text : String)
    (r : Option Params) (h : (getQuery w cfg id text).2 = .ok r) :
    (getQuery w cfg id text).1 = [.request (audioQueryRequest cfg id text)] := by
  rcases getQuery_events w cfg id text with ⟨-, e, he⟩ | h1
  · rw [he] at h
    cases h
  · exact h1

theorem synth_ok_events (w : World) (cfg : config) (id : Int) (params : Option Params)
    (b : Bytes) (h : (synth w cfg id params).2 = .ok b) :
    ∃ body, encodeParams params = .ok body ∧
      (synth w cfg id params).1 = [.request (synthesisRequest cfg id body)] := by
  rcases synth_events w cfg id params with ⟨-, e, he⟩ | h1
  · rw [he] at h
    cases h
  · exact h1

theorem playback_played (w : World) (p : Params) (b : Bytes) :
    (∀ d ∈ played (playback w p b).1, d = b) ∧
      (w.newContext p.OutputSamplingRate (if p.OutputStereo then 2 else 1) 2 3200 = none →
        played (playback w p b).1 = [b]) := by
  unfold playback
  dsimp only
  cases h : w.newContext p.OutputSamplingRate (if p.OutputStereo then 2 else 1) 2 3200 with
  | some e =>
    refine ⟨?_, fun h2 => by cases h2⟩
    intro d hd
    simp [played] at hd
  | none =>
    dsimp only
    cases w.copyToPlayer b with
    | some e => simp [played]
    | none =>
      dsimp only
      cases w.playerClose <;> simp [played]

theorem playback_written (w : World) (p : Params) (b : Bytes) :
    written (playback w p b).1 = [] := by
  unfold playback
  dsimp only
  repeat' split
  all_goals rfl

/-- The requests of a run that gets a query from `getQuery` and then calls
`synth`: none is added after the synthesis request. -/
theorem main_requests_of_query (w : World) (cfg : config) (args : List String) (dir : Speakers)
    (spk : Speaker) (sty : Styles) (p : Params)
    (hdir : w.speakers (speakersRequest cfg) = .ok dir)
    (hsel : selectStyle dir cfg.speaker cfg.style = .ok (spk, sty))
    (hq : (getQuery w cfg sty.ID (" ".intercalate args)).2 = .ok (some p)) :
    requests (main w cfg args).1 =
        [speakersRequest cfg, audioQueryRequest cfg sty.ID (" ".intercalate args)] ∨
      ∃ body, encodeParams (some (applyOverrides cfg p)) = .ok body ∧
        requests (main w cfg args).1 =
          [speakersRequest cfg, audioQueryRequest cfg sty.ID (" ".intercalate args),
            synthesisRequest cfg sty.ID body] := by
  have hgq := getQuery_ok_events w cfg sty.ID _ _ hq
  cases hs : (synth w cfg sty.ID (some (applyOverrides cfg p))).2 with
  | error e =>
    rw [main_synth_error w cfg args dir spk sty p e hdir hsel hq hs, hgq]
    rcases synth_events w cfg sty.ID (some (applyOverrides cfg p)) with ⟨h0, -⟩ | ⟨body, hb, h1⟩
    · rw [h0]
      exact Or.inl rfl
    · rw [h1]
      exact Or.inr ⟨body, hb, rfl⟩
  | ok b =>
    obtain ⟨body, hb, hsy⟩ := synth_ok_events w cfg sty.ID _ b hs
    rw [main_past_synth w cfg args dir spk sty p b hdir hsel hq hs, hgq, hsy]
    refine Or.inr ⟨body, hb, ?_⟩
    dsimp only
    rw [requests_append, output_requests]
    rfl

/-! ## Lemmas on the JSON decoding and encoding -/

theorem map_eq_ok {α β : Type} (f : α → β) (x : Except String α) (r : β)
    (h : x.map f = .ok r) : ∃ a, x = .ok a ∧ r = f a := by
  cases x with
  | error e => cases h
  | ok a =>
    cases h
    exact ⟨a, rfl, rfl⟩

theorem ofNat?_lt (n b : Nat) (hb : Float64.ofNat? n = some b) : b < 2047 * 2 ^ 52 := by
  unfold Float64.ofNat? at hb
  by_cases h0 : n = 0
  · rw [if_pos h0] at hb
    cases hb
    norm_num
  · rw [if_neg h0] at hb
    dsimp only at hb
    generalize (n.log2 + 1022) * 2 ^ 52 + _ = c at hb
    by_cases hc : c < 2047 * 2 ^ 52
    · rw [if_pos hc] at hb
      cases hb
      exact hc
    · rw [if_neg hc] at hb
      cases hb

theorem ofIntLit?_isFinite (neg : Bool) (mag : Nat) (f : Float64)
    (h : Float64.ofIntLit? neg mag = some f) : f.isFinite = true := by
  unfold Float64.ofIntLit? at h
  cases hb : Float64.ofNat? mag with
  | none => rw [hb] at h; cases h
  | some b =>
    rw [hb] at h
    cases h
    have hlt := ofNat?_lt mag b hb
    norm_num at hlt
    unfold Float64.isFinite
    dsimp only
    cases neg
    · simp only [bne_iff_ne, ne_eq]
      norm_num
      omega
    · simp only [bne_iff_ne, ne_eq]
      norm_num
      omega

theorem decodeFloat_isFinite (cur : Float64) (j : Json) (f : Float64)
    (hc : cur.isFinite = true) (h : decodeFloat cur j = .ok f) : f.isFinite = true := by
  unfold decodeFloat at h
  split at h
  · cases h
    exact hc
  · split at h
    · cases h
      assumption
    · cases h
  · split at h
    · cases h
      exact ofIntLit?_isFinite _ _ _ (by assumption)
    · cases h
  · cases h

theorem decodeInt_inInt64 (cur : Int) (j : Json) (i : Int)
    (hc : inInt64 cur = true) (h : decodeInt cur j = .ok i) : inInt64 i = true := by
  cases j with
  | null =>
    cases h
    exact hc
  | int neg mag =>
    unfold decodeInt at h
    dsimp only at h
    generalize (if neg = true then -(mag : Int) else (mag : Int)) = v at h
    by_cases hr : -(2 ^ 63) ≤ v ∧ v < 2 ^ 63
    · rw [if_pos hr] at h
      cases h
      simp only [inInt64, decide_eq_true_eq]
      exact hr
    · rw [if_neg hr] at h
      cases h
  | bool b => cases h
  | float f => cases h
  | str s => cases h
  | arr xs => cases h
  | obj kvs => cases h

theorem decodeInt_ofInt (cur i : Int) (hv : inInt64 i = true) :
    decodeInt cur (Json.ofInt i) = .ok i := by
  simp only [inInt64, decide_eq_true_eq] at hv
  unfold Json.ofInt decodeInt
  dsimp only
  have hi : (if decide (i < 0) = true then -((i.natAbs : Nat) : Int) else ((i.natAbs : Nat) : Int))
      = i := by
    by_cases h0 : i < 0
    · simp only [h0, decide_True, if_true]
      omega
    · simp only [h0, decide_False, Bool.false_eq_true, if_false]
      omega
  rw [hi, if_pos hv]

theorem decodeMembers_inv {α : Type} (P : α → Prop)
    (step : α → String → Json → Except String α)
    (hstep : ∀ cur k v r, P cur → step cur k v = .ok r → P r) :
    ∀ (kvs : List (String × Json)) (cur r : α), P cur → decodeMembers step cur kvs = .ok r →
      P r := by
  intro kvs
  induction kvs with
  | nil =>
    intro cur r hc h
    cases h
    exact hc
  | cons kv kvs ih =>
    intro cur r hc h
    obtain ⟨k, v⟩ := kv
    unfold decodeMembers at h
    cases hs : step cur k v with
    | error e => rw [hs] at h; cases h
    | ok c2 =>
      rw [hs] at h
      exact ih c2 r (hstep cur k v c2 hc hs) h

theorem decodeElems_inv {α : Type} (P : α → Prop) (zero : α)
    (dec : α → Json → Except String α) (hz : P zero)
    (hdec : ∀ c j r, P c → dec c j = .ok r → P r) :
    ∀ (js : List Json) (slots xs : List α), (∀ s ∈ slots, P s) →
      decodeElems zero dec slots js = .ok xs → ∀ x ∈ xs, P x := by
  intro js
  induction js with
  | nil =>
    intro slots xs _ h
    cases h
    simp
  | cons j js ih =>
    intro slots xs hs h
    unfold decodeElems at h
    have hhead : P (slots.headD zero) := by
      cases slots with
      | nil => exact hz
      | cons s ss => exact hs s (List.mem_cons_self _ _)
    have htail : ∀ s ∈ slots.tail, P s := fun s hm => hs s (List.mem_of_mem_tail hm)
    cases hj : dec (slots.headD zero) j with
    | error e => rw [hj] at h; cases h
    | ok a =>
      rw [hj] at h
      dsimp only at h
      cases hjs : decodeElems zero dec slots.tail js with
      | error e => rw [hjs] at h; cases h
      | ok as =>
        rw [hjs] at h
        cases h
        intro x hx
        rcases List.mem_cons.mp hx with rfl | hx
        · exact hdec _ j _ hhead hj
        · exact ih slots.tail as htail hjs x hx

theorem decodePtr_inv {α : Type} (P : α → Prop) (zero : α) (dec : α → Json → Except String α)
    (hz : P zero) (hdec : ∀ c j r, P c → dec c j = .ok r → P r)
    (cur : Option α) (j : Json) (r : Option α) (h : decodePtr zero dec cur j = .ok r)
    (hc : ∀ c, cur = some c → P c) : ∀ x, r = some x → P x := by
  unfold decodePtr at h
  split at h
  · cases h
    intro x hx
    cases hx
  · obtain ⟨a, ha, rfl⟩ := map_eq_ok _ _ _ h
    intro x hx
    cases hx
    refine hdec _ _ _ ?_ ha
    cases cur with
    | none => exact hz
    | some c => exact hc c rfl

theorem decodeSlice_inv {α : Type} (P : α → Prop) (zero : α) (dec : α → Json → Except String α)
    (hz : P zero) (hdec : ∀ c j r, P c → dec c j = .ok r → P r)
    (cur : Slice α) (j : Json) (r : Slice α) (hc : ∀ x ∈ cur.slots, P x)
    (h : decodeSlice zero dec cur j = .ok r) : ∀ x ∈ r.slots, P x := by
  unfold decodeSlice at h
  split at h
  · cases h
    intro x hx
    cases hx
  · cases h
    intro x hx
    cases hx
  · obtain ⟨a, ha, rfl⟩ := map_eq_ok _ _ _ h
    intro x hx
    rcases List.mem_append.mp hx with hx | hx
    · exact decodeElems_inv P zero dec hz hdec _ _ _ hc ha x hx
    · exact hc x (List.mem_of_mem_drop hx)
  · cases h

theorem slice_all_iff {α : Type} (p : α → Bool) (s : Slice α) :
    s.all p = true ↔ ∀ x ∈ s.slots, p x = true := by
  cases s with
  | nil => simp [Slice.all, Slice.slots]
  | mk elems spare =>
    simp only [Slice.all, Slice.slots, Bool.and_eq_true, List.all_eq_true, List.mem_append]
    constructor
    · rintro ⟨h1, h2⟩ x (hx | hx)
      · exact h1 x hx
      · exact h2 x hx
    · intro h
      exact ⟨fun x hx => h x (Or.inl hx), fun x hx => h x (Or.inr hx)⟩

theorem mora_valid_iff (m : Mora) :
    m.valid = true ↔ (∀ f, m.ConsonantLength = some f → f.isFinite = true) ∧
      m.VowelLength.isFinite = true ∧ m.Pitch.isFinite = true := by
  unfold Mora.valid
  cases m.ConsonantLength <;> simp [and_assoc]

theorem accentPhrases_valid_iff (a : AccentPhrases) :
    a.valid = true ↔ (∀ m ∈ a.Moras.slots, m.valid = true) ∧
      inInt64 a.Accent = true ∧ (∀ m, a.PauseMora = some m → m.valid = true) := by
  unfold AccentPhrases.valid
  rw [Bool.and_eq_true, Bool.and_eq_true, slice_all_iff]
  cases a.PauseMora <;> simp [and_assoc]

theorem params_valid_iff (p : Params) :
    p.valid = true ↔ (∀ a ∈ p.AccentPhrases.slots, a.valid = true) ∧
      p.SpeedScale.isFinite = true ∧ p.PitchScale.isFinite = true ∧
      p.IntonationScale.isFinite = true ∧ p.VolumeScale.isFinite = true ∧
      p.PrePhonemeLength.isFinite = true ∧ p.PostPhonemeLength.isFinite = true ∧
      inInt64 p.OutputSamplingRate = true := by
  unfold Params.valid
  simp only [Bool.and_eq_true, slice_all_iff, and_assoc]

theorem mora_decodeMember_valid (m : Mora) (k : String) (v : Json) (r : Mora)
    (hm : m.valid = true) (h : Mora.decodeMember m k v = .ok r) : r.valid = true := by
  rw [mora_valid_iff] at hm ⊢
  obtain ⟨h1, h2, h3⟩ := hm
  unfold Mora.decodeMember at h
  cases hf : fieldOf Mora.tags k with
  | none =>
    rw [hf] at h
    cases h
    exact ⟨h1, h2, h3⟩
  | some tag =>
    rw [hf] at h
    dsimp only at h
    split_ifs at h
    · obtain ⟨a, ha, rfl⟩ := map_eq_ok _ _ _ h
      exact ⟨h1, h2, h3⟩
    · obtain ⟨a, ha, rfl⟩ := map_eq_ok _ _ _ h
      exact ⟨h1, h2, h3⟩
    · obtain ⟨a, ha, rfl⟩ := map_eq_ok _ _ _ h
      exact ⟨decodePtr_inv (fun f => f.isFinite = true) _ _ rfl
        (fun c j r hc hr => decodeFloat_isFinite c j r hc hr) _ _ _ ha h1, h2, h3⟩
    · obtain ⟨a, ha, rfl⟩ := map_eq_ok _ _ _ h
      exact ⟨h1, h2, h3⟩
    · obtain ⟨a, ha, rfl⟩ := map_eq_ok _ _ _ h
      exact ⟨h1, decodeFloat_isFinite _ _ _ h2 ha, h3⟩
    · obtain ⟨a, ha, rfl⟩ := map_eq_ok _ _ _ h
      exact ⟨h1, h2, decodeFloat_isFinite _ _ _ h3 ha⟩
    · cases h
      exact ⟨h1, h2, h3⟩

theorem decodeMora_valid (cur : Mora) (j : Json) (r : Mora) (hc : cur.valid = true)
    (h : decodeMora cur j = .ok r) : r.valid = true := by
  unfold decodeMora at h
  split at h
  · cases h
    exact hc
  · exact decodeMembers_inv (fun m => m.valid = true) _ mora_decodeMember_valid _ _ _ hc h
  · cases h

theorem accentPhrases_decodeMember_valid (a : AccentPhrases) (k : String) (v : Json)
    (r : AccentPhrases) (hv : a.valid = true) (h : AccentPhrases.decodeMember a k v = .ok r) :
    r.valid = true := by
  rw [accentPhrases_valid_iff] at hv ⊢
  obtain ⟨h1, h2, h3⟩ := hv
  unfold AccentPhrases.decodeMember at h
  cases hf : fieldOf AccentPhrases.tags k with
  | none =>
    rw [hf] at h
    cases h
    exact ⟨h1, h2, h3⟩
  | some tag =>
    rw [hf] at h
    dsimp only at h
    split_ifs at h
    · obtain ⟨x, hx, rfl⟩ := map_eq_ok _ _ _ h
      exact ⟨decodeSlice_inv (fun m => m.valid = true) _ _ rfl
        (fun c j r hc hr => decodeMora_valid c j r hc hr) _ _ _ h1 hx, h2, h3⟩
    · obtain ⟨x, hx, rfl⟩ := map_eq_ok _ _ _ h
      exact ⟨h1, decodeInt_inInt64 _ _ _ h2 hx, h3⟩
    · obtain ⟨x, hx, rfl⟩ := map_eq_ok _ _ _ h
      exact ⟨h1, h2, decodePtr_inv (fun m => m.valid = true) _ _ rfl
        (fun c j r hc hr => decodeMora_valid c j r hc hr) _ _ _ hx h3⟩
    · obtain ⟨x, hx, rfl⟩ := map_eq_ok _ _ _ h
      exact ⟨h1, h2, h3⟩
    · cases h
      exact ⟨h1, h2, h3⟩

theorem decodeAccentPhrases_valid (cur : AccentPhrases) (j : Json) (r : AccentPhrases)
    (hc : cur.valid = true) (h : decodeAccentPhrases cur j = .ok r) : r.valid = true := by
  unfold decodeAccentPhrases at h
  split at h
  · cases h
    exact hc
  · exact decodeMembers_inv (fun m => m.valid = true) _ accentPhrases_decodeMember_valid
      _ _ _ hc h
  · cases h

theorem params_decodeMember_valid (p : Params) (k : String) (v : Json) (r : Params)
    (hv : p.valid = true) (h : Params.decodeMember p k v = .ok r) : r.valid = true := by
  rw [params_valid_iff] at hv ⊢
  obtain ⟨h1, h2, h3, h4, h5, h6, h7, h8⟩ := hv
  unfold Params.decodeMember at h
  cases hf : fieldOf Params.tags k with
  | none =>
    rw [hf] at h
    cases h
    exact ⟨h1, h2, h3, h4, h5, h6, h7, h8⟩
  | some tag =>
    rw [hf] at h
    dsimp only at h
    by_cases c0 : tag = "accent_phrases"
    · rw [if_pos c0] at h
      obtain ⟨x, hx, rfl⟩ := map_eq_ok _ _ _ h
      exact ⟨decodeSlice_inv (fun a => a.valid = true) _ _ rfl
        (fun c j r hc hr => decodeAccentPhrases_valid c j r hc hr) _ _ _ h1 hx,
        h2, h3, h4, h5, h6, h7, h8⟩
    rw [if_neg c0] at h
    by_cases c1 : tag = "speedScale"
    · rw [if_pos c1] at h
      obtain ⟨x, hx, rfl⟩ := map_eq_ok _ _ _ h
      exact ⟨h1, decodeFloat_isFinite _ _ _ h2 hx, h3, h4, h5, h6, h7, h8⟩
    rw [if_neg c1] at h
    by_cases c2 : tag = "pitchScale"
    · rw [if_pos c2] at h
      obtain ⟨x, hx, rfl⟩ := map_eq_ok _ _ _ h
      exact ⟨h1, h2, decodeFloat_isFinite _ _ _ h3 hx, h4, h5, h6, h7, h8⟩
    rw [if_neg c2] at h
    by_cases c3 : tag = "intonationScale"
    · rw [if_pos c3] at h
      obtain ⟨x, hx, rfl⟩ := map_eq_ok _ _ _ h
      exact ⟨h1, h2, h3, decodeFloat_isFinite _ _ _ h4 hx, h5, h6, h7, h8⟩
    rw [if_neg c3] at h
    by_cases c4 : tag = "volumeScale"
    · rw [if_pos c4] at h
      obtain ⟨x, hx, rfl⟩ := map_eq_ok _ _ _ h
      exact ⟨h1, h2, h3, h4, decodeFloat_isFinite _ _ _ h5 hx, h6, h7, h8⟩
    rw [if_neg c4] at h
    by_cases c5 : tag = "prePhonemeLength"
    · rw [if_pos c5] at h
      obtain ⟨x, hx, rfl⟩ := map_eq_ok _ _ _ h
      exact ⟨h1, h2, h3, h4, h5, decodeFloat_isFinite _ _ _ h6 hx, h7, h8⟩
    rw [if_neg c5] at h
    by_cases c6 : tag = "postPhonemeLength"
    · rw [if_pos c6] at h
      obtain ⟨x, hx, rfl⟩ := map_eq_ok _ _ _ h
      exact ⟨h1, h2, h3, h4, h5, h6, decodeFloat_isFinite _ _ _ h7 hx, h8⟩
    rw [if_neg c6] at h
    by_cases c7 : tag = "outputSamplingRate"
    · rw [if_pos c7] at h
      obtain ⟨x, hx, rfl⟩ := map_eq_ok _ _ _ h
      exact ⟨h1, h2, h3, h4, h5, h6, h7, decodeInt_inInt64 _ _ _ h8 hx⟩
    rw [if_neg c7] at h
    by_cases c8 : tag = "outputStereo"
    · rw [if_pos c8] at h
      obtain ⟨x, hx, rfl⟩ := map_eq_ok _ _ _ h
      exact ⟨h1, h2, h3, h4, h5, h6, h7, h8⟩
    rw [if_neg c8] at h
    by_cases c9 : tag = "kana"
    · rw [if_pos c9] at h
      obtain ⟨x, hx, rfl⟩ := map_eq_ok _ _ _ h
      exact ⟨h1, h2, h3, h4, h5, h6, h7, h8⟩
    rw [if_neg c9] at h
    cases h
    exact ⟨h1, h2, h3, h4, h5, h6, h7, h8⟩

theorem decodeParams_valid (doc : Json) (p : Params) (h : decodeParams doc = .ok (some p)) :
    p.valid = true := by
  unfold decodeParams at h
  split at h
  · cases h
  · obtain ⟨x, hx, hp⟩ := map_eq_ok _ _ _ h
    cases hp
    exact decodeMembers_inv (fun m => m.valid = true) _ params_decodeMember_valid _ _ _ rfl hx
  · cases h

theorem decodeFloat_encodeFloat (cur f : Float64) (j : Json) (h : encodeFloat f = .ok j) :
    decodeFloat cur j = .ok f ∧ j ≠ .null ∧ j.isFiniteFloat = true := by
  unfold encodeFloat at h
  split at h
  · rename_i hf
    cases h
    simp [decodeFloat, hf, Json.isFiniteFloat]
  · cases h

theorem decodeElems_encodeElems {α : Type} (zero : α) (dec : α → Json → Except String α)
    (enc : α → Except String Json) (f : α → α)
    (P : α → Prop) (hrt : ∀ a j, P a → enc a = .ok j → dec zero j = .ok (f a)) :
    ∀ (xs : List α) (js : List Json), (∀ x ∈ xs, P x) → encodeElems enc xs = .ok js →
      decodeElems zero dec [] js = .ok (xs.map f) ∧ js.length = xs.length := by
  intro xs
  induction xs with
  | nil =>
    intro js _ h
    simp [encodeElems] at h
    subst h
    exact ⟨rfl, rfl⟩
  | cons a as ih =>
    intro js hP h
    unfold encodeElems at h
    cases ha : enc a with
    | error e => rw [ha] at h; cases h
    | ok j =>
      rw [ha] at h
      dsimp only at h
      cases has : encodeElems enc as with
      | error e => rw [has] at h; cases h
      | ok js2 =>
        rw [has] at h
        dsimp only at h
        cases h
        obtain ⟨ih1, ih2⟩ := ih js2 (fun x hx => hP x (List.mem_cons_of_mem _ hx)) has
        refine ⟨?_, by simp [ih2]⟩
        unfold decodeElems
        simp only [List.headD_nil, List.tail_nil]
        rw [hrt a j (hP a (List.mem_cons_self _ _)) ha]
        dsimp only
        rw [ih1]
        rfl

theorem decodeSlice_encodeSlice {α : Type} (zero : α) (dec : α → Json → Except String α)
    (enc : α → Except String Json) (f : α → α)
    (P : α → Prop) (hrt : ∀ a j, P a → enc a = .ok j → dec zero j = .ok (f a))
    (s : Slice α) (j : Json) (hP : ∀ x ∈ s.slots, P x)
    (h : encodeSlice enc s = .ok j) :
    decodeSlice zero dec .nil j = .ok (s.trim f) := by
  cases s with
  | nil =>
    simp [encodeSlice] at h
    subst h
    rfl
  | mk xs sp =>
    unfold encodeSlice at h
    dsimp only at h
    cases hx : encodeElems enc xs with
    | error e => rw [hx] at h; cases h
    | ok js =>
      rw [hx] at h
      cases h
      have hPx : ∀ x ∈ xs, P x := fun x hm => hP x (List.mem_append_left _ hm)
      obtain ⟨h1, h2⟩ := decodeElems_encodeElems zero dec enc f P hrt xs js hPx hx
      cases js with
      | nil =>
        cases xs with
        | nil => rfl
        | cons x xs => simp at h2
      | cons j0 js0 =>
        unfold decodeSlice
        dsimp only
        simp only [Slice.slots]
        rw [h1]
        rfl

theorem decodePtr_encodePtr {α : Type} (zero : α) (dec : α → Json → Except String α)
    (enc : α → Except String Json)
    (P : α → Prop) (hrt : ∀ cur a j, P a → enc a = .ok j → dec cur j = .ok a ∧ j ≠ .null)
    (cur o : Option α) (j : Json) (hP : ∀ x, o = some x → P x) (h : encodePtr enc o = .ok j) :
    decodePtr zero dec cur j = .ok o := by
  cases o with
  | none =>
    simp [encodePtr] at h
    subst h
    rfl
  | some a =>
    unfold encodePtr at h
    dsimp only at h
    obtain ⟨h1, h2⟩ := hrt (cur.getD zero) a j (hP a rfl) h
    unfold decodePtr
    split
    · exact absurd rfl h2
    · rw [h1]
      rfl

theorem decodeMora_encodeMora (cur m : Mora) (j : Json) (h : encodeMora m = .ok j) :
    decodeMora cur j = .ok m ∧ j ≠ .null := by
  unfold encodeMora at h
  cases hcl : encodePtr encodeFloat m.ConsonantLength with
  | error e => rw [hcl] at h; cases h
  | ok cl =>
    cases hvl : encodeFloat m.VowelLength with
    | error e => rw [hcl, hvl] at h; cases h
    | ok vl =>
      cases hpi : encodeFloat m.Pitch with
      | error e => rw [hcl, hvl, hpi] at h; cases h
      | ok pi =>
        rw [hcl, hvl, hpi] at h
        cases h
        refine ⟨?_, by simp⟩
        have h1 := decodePtr_encodePtr Float64.zero decodeFloat encodeFloat (fun _ => True)
          (fun c a j _ hj => ⟨(decodeFloat_encodeFloat c a j hj).1,
            (decodeFloat_encodeFloat c a j hj).2.1⟩) cur.ConsonantLength _ _
          (fun _ _ => trivial) hcl
        have h2 := fun c => (decodeFloat_encodeFloat c _ _ hvl).1
        have h3 := fun c => (decodeFloat_encodeFloat c _ _ hpi).1
        have hc : decodePtr "" decodeString cur.Consonant
            (match m.Consonant with | none => .null | some s => .str s) = .ok m.Consonant := by
          cases m.Consonant <;> rfl
        have t1 : fieldOf Mora.tags "text" = some "text" := by decide
        have t2 : fieldOf Mora.tags "consonant" = some "consonant" := by decide
        have t3 : fieldOf Mora.tags "consonant_length" = some "consonant_length" := by decide
        have t4 : fieldOf Mora.tags "vowel" = some "vowel" := by decide
        have t5 : fieldOf Mora.tags "vowel_length" = some "vowel_length" := by decide
        have t6 : fieldOf Mora.tags "pitch" = some "pitch" := by decide
        simp [decodeMora, decodeMembers, Mora.decodeMember, t1, t2, t3, t4, t5, t6, h1, h2, h3,
          hc, decodeString, Except.map]

theorem decodeAccentPhrases_encodeAccentPhrases (a : AccentPhrases) (j : Json)
    (hv : inInt64 a.Accent = true) (h : encodeAccentPhrases a = .ok j) :
    decodeAccentPhrases AccentPhrases.zero j = .ok a.trim := by
  unfold encodeAccentPhrases at h
  cases hms : encodeSlice encodeMora a.Moras with
  | error e => rw [hms] at h; cases h
  | ok ms =>
    cases hpm : encodePtr encodeMora a.PauseMora with
    | error e => rw [hms, hpm] at h; cases h
    | ok pm =>
      rw [hms, hpm] at h
      cases h
      have h1 := decodeSlice_encodeSlice Mora.zero decodeMora encodeMora id (fun _ => True)
        (fun m j _ hj => (decodeMora_encodeMora Mora.zero m j hj).1) a.Moras _
        (fun _ _ => trivial) hms
      have h2 := decodePtr_encodePtr Mora.zero decodeMora encodeMora (fun _ => True)
        (fun c m j _ hj => decodeMora_encodeMora c m j hj) none _ _
        (fun _ _ => trivial) hpm
      have h3 := fun c => decodeInt_ofInt c a.Accent hv
      have t1 : fieldOf AccentPhrases.tags "moras" = some "moras" := by decide
      have t2 : fieldOf AccentPhrases.tags "accent" = some "accent" := by decide
      have t3 : fieldOf AccentPhrases.tags "pause_mora" = some "pause_mora" := by decide
      have t4 : fieldOf AccentPhrases.tags "is_interrogative" = some "is_interrogative" := by
        decide
      simp [decodeAccentPhrases, decodeMembers, AccentPhrases.decodeMember, t1, t2, t3, t4, h1,
        h2, h3, decodeBool, Except.map, AccentPhrases.zero, AccentPhrases.trim]

theorem decodeParams_encodeParamsValue (p : Params) (d : Json) (hv : p.valid = true)
    (h : encodeParamsValue p = .ok d) : decodeParams d = .ok (some p.trim) := by
  rw [params_valid_iff] at hv
  obtain ⟨v1, -, -, -, -, -, -, v8⟩ := hv
  unfold encodeParamsValue at h
  cases h0 : encodeSlice encodeAccentPhrases p.AccentPhrases with
  | error e => rw [h0] at h; cases h
  | ok aps =>
    cases h1 : encodeFloat p.SpeedScale with
    | error e => rw [h0, h1] at h; cases h
    | ok x1 =>
      cases h2 : encodeFloat p.PitchScale with
      | error e => rw [h0, h1, h2] at h; cases h
      | ok x2 =>
        cases h3 : encodeFloat p.IntonationScale with
        | error e => rw [h0, h1, h2, h3] at h; cases h
        | ok x3 =>
          cases h4 : encodeFloat p.VolumeScale with
          | error e => rw [h0, h1, h2, h3, h4] at h; cases h
          | ok x4 =>
            cases h5 : encodeFloat p.PrePhonemeLength with
            | error e => rw [h0, h1, h2, h3, h4, h5] at h; cases h
            | ok x5 =>
              cases h6 : encodeFloat p.PostPhonemeLength with
              | error e => rw [h0, h1, h2, h3, h4, h5, h6] at h; cases h
              | ok x6 =>
                rw [h0, h1, h2, h3, h4, h5, h6] at h
                cases h
                have d0 := decodeSlice_encodeSlice AccentPhrases.zero decodeAccentPhrases
                  encodeAccentPhrases AccentPhrases.trim (fun a => a.valid = true)
                  (fun a j ha hj => decodeAccentPhrases_encodeAccentPhrases a j
                    ((accentPhrases_valid_iff a).mp ha).2.1 hj)
                  p.AccentPhrases _ v1 h0
                have d1 := fun c => (decodeFloat_encodeFloat c _ _ h1).1
                have d2 := fun c => (decodeFloat_encodeFloat c _ _ h2).1
                have d3 := fun c => (decodeFloat_encodeFloat c _ _ h3).1
                have d4 := fun c => (decodeFloat_encodeFloat c _ _ h4).1
                have d5 := fun c => (decodeFloat_encodeFloat c _ _ h5).1
                have d6 := fun c => (decodeFloat_encodeFloat c _ _ h6).1
                have d7 := fun c => decodeInt_ofInt c p.OutputSamplingRate v8
                have t0 : fieldOf Params.tags "accent_phrases" = some "accent_phrases" := by
                  decide
                have t1 : fieldOf Params.tags "speedScale" = some "speedScale" := by decide
                have t2 : fieldOf Params.tags "pitchScale" = some "pitchScale" := by decide
                have t3 : fieldOf Params.tags "intonationScale" = some "intonationScale" := by
                  decide
                have t4 : fieldOf Params.tags "volumeScale" = some "volumeScale" := by decide
                have t5 : fieldOf Params.tags "prePhonemeLength" = some "prePhonemeLength" := by
                  decide
                have t6 : fieldOf Params.tags "postPhonemeLength" = some "postPhonemeLength" := by
                  decide
                have t7 : fieldOf Params.tags "outputSamplingRate" =
                    some "outputSamplingRate" := by decide
                have t8 : fieldOf Params.tags "outputStereo" = some "outputStereo" := by decide
                have t9 : fieldOf Params.tags "kana" = some "kana" := by decide
                simp [decodeParams, decodeMembers, Params.decodeMember, t0, t1, t2, t3, t4, t5,
                  t6, t7, t8, t9, d0, d1, d2, d3, d4, d5, d6, d7, decodeBool, decodeString,
                  Except.map, Params.zero, Params.trim]

theorem encodeElems_total {α : Type} (enc : α → Except String Json) :
    ∀ (xs : List α), (∀ x ∈ xs, ∃ j, enc x = .ok j) → ∃ js, encodeElems enc xs = .ok js := by
  intro xs
  induction xs with
  | nil => exact fun _ => ⟨[], rfl⟩
  | cons a as ih =>
    intro h
    obtain ⟨j, hj⟩ := h a (List.mem_cons_self _ _)
    obtain ⟨js, hjs⟩ := ih (fun x hx => h x (List.mem_cons_of_mem _ hx))
    refine ⟨j :: js, ?_⟩
    unfold encodeElems
    rw [hj]
    dsimp only
    rw [hjs]

theorem encodeSlice_total {α : Type} (enc : α → Except String Json) (s : Slice α)
    (h : ∀ x ∈ s.slots, ∃ j, enc x = .ok j) : ∃ j, encodeSlice enc s = .ok j := by
  cases s with
  | nil => exact ⟨.null, rfl⟩
  | mk xs sp =>
    obtain ⟨js, hjs⟩ := encodeElems_total enc xs
      (fun x hx => h x (List.mem_append_left _ hx))
    refine ⟨.arr js, ?_⟩
    unfold encodeSlice
    dsimp only
    rw [hjs]
    rfl

theorem encodePtr_total {α : Type} (enc : α → Except String Json) (o : Option α)
    (h : ∀ x, o = some x → ∃ j, enc x = .ok j) : ∃ j, encodePtr enc o = .ok j := by
  cases o with
  | none => exact ⟨.null, rfl⟩
  | some x => exact h x rfl

theorem encodeFloat_total (f : Float64) (h : f.isFinite = true) :
    encodeFloat f = .ok (.float f) := by
  unfold encodeFloat
  rw [if_pos h]

theorem encodeMora_total (m : Mora) (h : m.valid = true) : ∃ j, encodeMora m = .ok j := by
  rw [mora_valid_iff] at h
  obtain ⟨h1, h2, h3⟩ := h
  obtain ⟨cl, hcl⟩ := encodePtr_total encodeFloat m.ConsonantLength
    (fun f hf => ⟨_, encodeFloat_total f (h1 f hf)⟩)
  unfold encodeMora
  rw [hcl, encodeFloat_total _ h2, encodeFloat_total _ h3]
  exact ⟨_, rfl⟩

theorem encodeAccentPhrases_total (a : AccentPhrases) (h : a.valid = true) :
    ∃ j, encodeAccentPhrases a = .ok j := by
  rw [accentPhrases_valid_iff] at h
  obtain ⟨h1, h2, h3⟩ := h
  obtain ⟨ms, hms⟩ := encodeSlice_total encodeMora a.Moras
    (fun x hx => encodeMora_total x (h1 x hx))
  obtain ⟨pm, hpm⟩ := encodePtr_total encodeMora a.PauseMora
    (fun x hx => encodeMora_total x (h3 x hx))
  unfold encodeAccentPhrases
  rw [hms, hpm]
  exact ⟨_, rfl⟩

theorem encodeParamsValue_total (p : Params) (h : p.valid = true) :
    ∃ j, encodeParamsValue p = .ok j := by
  rw [params_valid_iff] at h
  obtain ⟨h1, h2, h3, h4, h5, h6, h7, h8⟩ := h
  obtain ⟨aps, haps⟩ := encodeSlice_total encodeAccentPhrases p.AccentPhrases
    (fun x hx => encodeAccentPhrases_total x (h1 x hx))
  unfold encodeParamsValue
  rw [haps, encodeFloat_total _ h2, encodeFloat_total _ h3, encodeFloat_total _ h4,
    encodeFloat_total _ h5, encodeFloat_total _ h6, encodeFloat_total _ h7]
  exact ⟨_, rfl⟩

theorem encodeElems_map {α : Type} (enc : α → Except String Json) (f : α → α)
    (hf : ∀ x, enc (f x) = enc x) (xs : List α) :
    encodeElems enc (xs.map f) = encodeElems enc xs := by
  induction xs with
  | nil => rfl
  | cons a as ih =>
    simp only [List.map_cons]
    unfold encodeElems
    rw [hf a, ih]

theorem encodeSlice_trim {α : Type} (enc : α → Except String Json) (f : α → α)
    (hf : ∀ x, enc (f x) = enc x) (s : Slice α) :
    encodeSlice enc (s.trim f) = encodeSlice enc s := by
  cases s with
  | nil => rfl
  | mk xs sp =>
    simp only [Slice.trim, encodeSlice]
    rw [encodeElems_map enc f hf xs]

theorem encodeAccentPhrases_trim (a : AccentPhrases) :
    encodeAccentPhrases a.trim = encodeAccentPhrases a := by
  unfold encodeAccentPhrases AccentPhrases.trim
  dsimp only
  rw [encodeSlice_trim encodeMora id (fun _ => rfl)]

theorem encodeParamsValue_trim (p : Params) :
    encodeParamsValue p.trim = encodeParamsValue p := by
  unfold encodeParamsValue Params.trim
  dsimp only
  rw [encodeSlice_trim encodeAccentPhrases AccentPhrases.trim encodeAccentPhrases_trim]

theorem encodeElems_all {α : Type} (enc : α → Except String Json) (q : Json → Bool)
    (P : α → Prop) (hq : ∀ x j, P x → enc x = .ok j → q j = true) :
    ∀ (xs : List α) (js : List Json), (∀ x ∈ xs, P x) → encodeElems enc xs = .ok js →
      js.all q = true := by
  intro xs
  induction xs with
  | nil =>
    intro js _ h
    cases h
    rfl
  | cons a as ih =>
    intro js hP h
    unfold encodeElems at h
    cases ha : enc a with
    | error e => rw [ha] at h; cases h
    | ok j =>
      rw [ha] at h
      dsimp only at h
      cases has : encodeElems enc as with
      | error e => rw [has] at h; cases h
      | ok js2 =>
        rw [has] at h
        cases h
        simp only [List.all_cons, Bool.and_eq_true]
        exact ⟨hq a j (hP a (List.mem_cons_self _ _)) ha,
          ih js2 (fun x hx => hP x (List.mem_cons_of_mem _ hx)) has⟩

theorem encodeSlice_wire {α : Type} (enc : α → Except String Json) (q : Json → Bool)
    (P : α → Prop) (hq : ∀ x j, P x → enc x = .ok j → q j = true)
    (s : Slice α) (j : Json) (hP : ∀ x ∈ s.slots, P x) (h : encodeSlice enc s = .ok j) :
    (j.isNull || j.isArrayOf q) = true := by
  cases s with
  | nil =>
    cases h
    rfl
  | mk xs sp =>
    unfold encodeSlice at h
    dsimp only at h
    obtain ⟨js, hjs, rfl⟩ := map_eq_ok _ _ _ h
    simp only [Json.isNull, Json.isArrayOf, Bool.false_or]
    exact encodeElems_all enc q P hq xs js (fun x hx => hP x (List.mem_append_left _ hx)) hjs

theorem encodePtr_wire {α : Type} (enc : α → Except String Json) (q : Json → Bool)
    (hq : ∀ x j, enc x = .ok j → q j = true)
    (o : Option α) (j : Json) (h : encodePtr enc o = .ok j) :
    (j.isNull || q j) = true := by
  cases o with
  | none =>
    cases h
    rfl
  | some x =>
    rw [hq x j h]
    simp

theorem ofInt_isInt64 (i : Int) (hv : inInt64 i = true) : (Json.ofInt i).isInt64 = true := by
  have hd := decodeInt_ofInt 0 i hv
  simp only [inInt64, decide_eq_true_eq] at hv
  unfold Json.ofInt Json.isInt64
  by_cases h0 : i < 0
  · have e : (-((i.natAbs : Nat) : Int)) = i := by omega
    simp only [h0, decide_True, if_true, e, inInt64, Bool.and_eq_true, decide_eq_true_eq,
      Bool.not_eq_true', Bool.true_and, beq_eq_false_iff_ne, ne_eq]
    exact ⟨hv, by omega⟩
  · have e : (((i.natAbs : Nat) : Int)) = i := by omega
    simp only [h0, decide_False, Bool.false_eq_true, if_false, e, inInt64, Bool.and_eq_true,
      decide_eq_true_eq, Bool.false_and, Bool.not_false]
    exact ⟨hv, trivial⟩

theorem encodeMora_wire (m : Mora) (j : Json) (h : encodeMora m = .ok j) :
    isMoraWire j = true := by
  unfold encodeMora at h
  cases hcl : encodePtr encodeFloat m.ConsonantLength with
  | error e => rw [hcl] at h; cases h
  | ok cl =>
    cases hvl : encodeFloat m.VowelLength with
    | error e => rw [hcl, hvl] at h; cases h
    | ok vl =>
      cases hpi : encodeFloat m.Pitch with
      | error e => rw [hcl, hvl, hpi] at h; cases h
      | ok pi =>
        rw [hcl, hvl, hpi] at h
        cases h
        have w1 := encodePtr_wire encodeFloat Json.isFiniteFloat
          (fun x j hj => (decodeFloat_encodeFloat x x j hj).2.2) _ _ hcl
        have w2 := (decodeFloat_encodeFloat m.VowelLength _ _ hvl).2.2
        have w3 := (decodeFloat_encodeFloat m.Pitch _ _ hpi).2.2
        have wc : ((match m.Consonant with | none => Json.null | some s => Json.str s).isNull ||
            (match m.Consonant with | none => Json.null | some s => Json.str s).isStr) = true := by
          cases m.Consonant <;> rfl
        have hk : (Json.obj [("text", Json.str m.Text),
            ("consonant", match m.Consonant with | none => Json.null | some s => Json.str s),
            ("consonant_length", cl), ("vowel", Json.str m.Vowel), ("vowel_length", vl),
            ("pitch", pi)]).keys = Mora.tags := rfl
        have s1 : (Json.str m.Text).isStr = true := rfl
        have s2 : (Json.str m.Vowel).isStr = true := rfl
        unfold isMoraWire
        rw [hk]
        simp only [Json.values, List.map_cons, List.map_nil, decide_True, Bool.true_and,
          s1, s2, w1, w2, w3, wc, Bool.and_self]

theorem encodeAccentPhrases_wire (a : AccentPhrases) (j : Json) (hv : a.valid = true)
    (h : encodeAccentPhrases a = .ok j) : isAccentPhrasesWire j = true := by
  rw [accentPhrases_valid_iff] at hv
  obtain ⟨v1, v2, -⟩ := hv
  unfold encodeAccentPhrases at h
  cases hms : encodeSlice encodeMora a.Moras with
  | error e => rw [hms] at h; cases h
  | ok ms =>
    cases hpm : encodePtr encodeMora a.PauseMora with
    | error e => rw [hms, hpm] at h; cases h
    | ok pm =>
      rw [hms, hpm] at h
      cases h
      have w1 := encodeSlice_wire encodeMora isMoraWire (fun _ => True)
        (fun x j _ hj => encodeMora_wire x j hj) a.Moras ms (fun _ _ => trivial) hms
      have w2 := encodePtr_wire encodeMora isMoraWire encodeMora_wire _ _ hpm
      have w3 := ofInt_isInt64 a.Accent v2
      have hk : (Json.obj [("moras", ms), ("accent", Json.ofInt a.Accent), ("pause_mora", pm),
          ("is_interrogative", Json.bool a.IsInterrogative)]).keys = AccentPhrases.tags := rfl
      have s1 : (Json.bool a.IsInterrogative).isBool = true := rfl
      unfold isAccentPhrasesWire
      rw [hk]
      simp only [Json.values, List.map_cons, List.map_nil, decide_True, Bool.true_and,
        s1, w1, w2, w3, Bool.and_self]

theorem encodeParamsValue_wire (p : Params) (d : Json) (hv : p.valid = true)
    (h : encodeParamsValue p = .ok d) : isParamsWire d = true := by
  rw [params_valid_iff] at hv
  obtain ⟨v1, -, -, -, -, -, -, v8⟩ := hv
  unfold encodeParamsValue at h
  cases h0 : encodeSlice encodeAccentPhrases p.AccentPhrases with
  | error e => rw [h0] at h; cases h
  | ok aps =>
    cases h1 : encodeFloat p.SpeedScale with
    | error e => rw [h0, h1] at h; cases h
    | ok x1 =>
      cases h2 : encodeFloat p.PitchScale with
      | error e => rw [h0, h1, h2] at h; cases h
      | ok x2 =>
        cases h3 : encodeFloat p.IntonationScale with
        | error e => rw [h0, h1, h2, h3] at h; cases h
        | ok x3 =>
          cases h4 : encodeFloat p.VolumeScale with
          | error e => rw [h0, h1, h2, h3, h4] at h; cases h
          | ok x4 =>
            cases h5 : encodeFloat p.PrePhonemeLength with
            | error e => rw [h0, h1, h2, h3, h4, h5] at h; cases h
            | ok x5 =>
              cases h6 : encodeFloat p.PostPhonemeLength with
              | error e => rw [h0, h1, h2, h3, h4, h5, h6] at h; cases h
              | ok x6 =>
                rw [h0, h1, h2, h3, h4, h5, h6] at h
                cases h
                have w0 := encodeSlice_wire encodeAccentPhrases isAccentPhrasesWire
                  (fun a => a.valid = true) (fun x j hx hj => encodeAccentPhrases_wire x j hx hj)
                  p.AccentPhrases aps v1 h0
                have w1 := (decodeFloat_encodeFloat p.SpeedScale _ _ h1).2.2
                have w2 := (decodeFloat_encodeFloat p.SpeedScale _ _ h2).2.2
                have w3 := (decodeFloat_encodeFloat p.SpeedScale _ _ h3).2.2
                have w4 := (decodeFloat_encodeFloat p.SpeedScale _ _ h4).2.2
                have w5 := (decodeFloat_encodeFloat p.SpeedScale _ _ h5).2.2
                have w6 := (decodeFloat_encodeFloat p.SpeedScale _ _ h6).2.2
                have w7 := ofInt_isInt64 p.OutputSamplingRate v8
                have hk : (Json.obj [("accent_phrases", aps), ("speedScale", x1),
                    ("pitchScale", x2), ("intonationScale", x3), ("volumeScale", x4),
                    ("prePhonemeLength", x5), ("postPhonemeLength", x6),
                    ("outputSamplingRate", Json.ofInt p.OutputSamplingRate),
                    ("outputStereo", Json.bool p.OutputStereo),
                    ("kana", Json.str p.Kana)]).keys = Params.tags := rfl
                have s1 : (Json.bool p.OutputStereo).isBool = true := rfl
                have s2 : (Json.str p.Kana).isStr = true := rfl
                unfold isParamsWire
                rw [hk]
                simp only [Json.values, List.map_cons, List.map_nil, decide_True, Bool.true_and,
                  s1, s2, w0, w1, w2, w3, w4, w5, w6, w7, Bool.and_self]

/-- The literal `-0` under a `float64` field reads as negative zero. -/
theorem decodeFloat_negative_zero :
    decodeFloat Float64.zero (.int true 0) = .ok ⟨2 ^ 63⟩ := by
  rfl

/-- A repeated slice-typed key is decoded into the elements the first
occurrence left: the accent phrase keeps its accent, its flag and its mora. -/
theorem decodeParams_repeated_key :
    decodeParams exampleDocRepeated = .ok (some exampleParamsRepeated) := by
  rfl

/-! ## Lemmas on decimal numerals -/

theorem digitValue_digitChar (d : Nat) (h : d < 10) : digitValue (Nat.digitChar d) = some d := by
  interval_cases d <;> rfl

theorem digitValue_minus : digitValue '-' = none := by
  decide

theorem parseDigits_cons (c : Char) (cs : List Char) (acc d : Nat)
    (h : digitValue c = some d) : parseDigits (c :: cs) acc = parseDigits cs (acc * 10 + d) := by
  rw [parseDigits, h]

theorem toDigitsCore_ne_nil (fuel n : Nat) (ds : List Char) (h : ds ≠ []) :
    Nat.toDigitsCore 10 fuel n ds ≠ [] := by
  induction fuel generalizing n ds with
  | zero => exact h
  | succ fuel ih =>
    unfold Nat.toDigitsCore
    dsimp only
    split
    · simp
    · exact ih _ _ (by simp)

theorem toDigits_ne_nil (n : Nat) : Nat.toDigits 10 n ≠ [] := by
  unfold Nat.toDigits Nat.toDigitsCore
  dsimp only
  split
  · simp
  · exact toDigitsCore_ne_nil _ _ _ (by simp)

theorem parseDigits_toDigitsCore (fuel : Nat) :
    ∀ (n : Nat) (ds : List Char), n < fuel →
      parseDigits (Nat.toDigitsCore 10 fuel n ds) 0 = parseDigits ds n := by
  induction fuel with
  | zero =>
    intro n ds h
    omega
  | succ fuel ih =>
    intro n ds h
    have hd : digitValue (Nat.digitChar (n % 10)) = some (n % 10) :=
      digitValue_digitChar _ (Nat.mod_lt _ (by decide))
    unfold Nat.toDigitsCore
    dsimp only
    by_cases h0 : n / 10 = 0
    · rw [if_pos h0, parseDigits_cons _ _ _ _ hd]
      have e : 0 * 10 + n % 10 = n := by omega
      rw [e]
    · rw [if_neg h0, ih (n / 10) _ (by omega), parseDigits_cons _ _ _ _ hd]
      have e : n / 10 * 10 + n % 10 = n := by omega
      rw [e]

theorem parseDigits_toDigits (n : Nat) : parseDigits (Nat.toDigits 10 n) 0 = some n := by
  unfold Nat.toDigits
  rw [parseDigits_toDigitsCore (n + 1) n [] (by omega)]
  rfl

theorem Atoi_Itoa (i : Int) : Atoi (Itoa i) = some i := by
  cases i with
  | ofNat m =>
    have hdata : (Itoa (Int.ofNat m)).data = Nat.toDigits 10 m := rfl
    unfold Atoi
    rw [hdata]
    have hp := parseDigits_toDigits m
    cases hl : Nat.toDigits 10 m with
    | nil => exact absurd hl (toDigits_ne_nil m)
    | cons c cs =>
      rw [hl] at hp
      dsimp only
      by_cases hc : c = '-'
      · subst hc
        rw [parseDigits, digitValue_minus] at hp
        cases hp
      · rw [if_neg hc, hp]
        rfl
  | negSucc m =>
    have hdata : (Itoa (Int.negSucc m)).data = '-' :: Nat.toDigits 10 (m + 1) := rfl
    unfold Atoi
    rw [hdata]
    dsimp only
    rw [if_pos rfl, if_neg (toDigits_ne_nil (m + 1)), parseDigits_toDigits]
    rfl

/-! ## The claims -/

/-- C1: for every directory and every pair of indices within its bounds, the
selection yields the speaker and the style at those indices, so that the id
`main` goes on with is exactly `directory[speakerIndex].styles[styleIndex].id`. -/
theorem selectStyle_valid (dir : Speakers) (s t : Nat) (hs : s < dir.length)
    (ht : t < dir[s].Styles.length) :
    selectStyle dir s t = .ok (dir[s], dir[s].Styles[t]) ∧
      (selectStyle dir s t).map (fun r => r.2.ID) = .ok dir[s].Styles[t].ID := by
  have h : selectStyle dir s t = .ok (dir[s], dir[s].Styles[t]) := by
    have h1 : ¬ ((s : Int) ≥ (dir.length : Int)) := by omega
    have h2 : ¬ ((t : Int) ≥ (dir[s].Styles.length : Int)) := by omega
    unfold selectStyle
    rw [if_neg h1, index?_natCast, List.getElem?_eq_getElem hs]
    simp only []
    rw [if_neg h2, index?_natCast, List.getElem?_eq_getElem ht]
  exact ⟨h, by rw [h]; rfl⟩

/-- Witness of `selectStyle_valid` on the one-speaker directory. -/
theorem selectStyle_valid_witness :
    selectStyle exampleDir (0 : Nat) (0 : Nat) =
        .ok (exampleDir[0], exampleDir[0].Styles[0]) ∧
      (selectStyle exampleDir (0 : Nat) (0 : Nat)).map (fun r => r.2.ID) =
        .ok exampleDir[0].Styles[0].ID :=
  selectStyle_valid exampleDir 0 0 (by decide) (by decide)

/-- C2: when the speaker index is at least the length of the directory, or the
speaker index is in range and the style index is at least the number of styles
of that speaker, the run ends in `log.Fatal` with "speaker not found",
respectively "style not found", and the only request it has sent is the one
for the directory: no audio_query request and no synthesis request. -/
theorem main_out_of_range (w : World) (cfg : config) (args : List String) (dir : Speakers)
    (hdir : w.speakers (speakersRequest cfg) = .ok dir)
    (h : (dir.length : Int) ≤ cfg.speaker ∨
      (0 ≤ cfg.speaker ∧ ∃ spk, dir[cfg.speaker.toNat]? = some spk ∧
        (spk.Styles.length : Int) ≤ cfg.style)) :
    main w cfg args =
        ([.request (speakersRequest cfg)],
          .fatal (if (dir.length : Int) ≤ cfg.speaker then "speaker not found"
            else "style not found")) ∧
      requests (main w cfg args).1 = [speakersRequest cfg] := by
  have hm : main w cfg args =
        ([.request (speakersRequest cfg)],
          .fatal (if (dir.length : Int) ≤ cfg.speaker then "speaker not found"
            else "style not found")) := by
    rcases h with h | ⟨h0, spk, hspk, hst⟩
    · rw [if_pos h]
      exact main_stops_on_selection w cfg args dir _ hdir
        (selectStyle_speaker_not_found dir _ _ h)
    · have hlt : cfg.speaker.toNat < dir.length := by
        rcases List.getElem?_eq_some_iff.mp hspk with ⟨hl, -⟩
        exact hl
      rw [if_neg (by omega)]
      exact main_stops_on_selection w cfg args dir _ hdir
        (selectStyle_style_not_found dir _ _ spk h0 hspk hst)
  refine ⟨hm, ?_⟩
  rw [hm]
  rfl

/-- Witness of `main_out_of_range`: style index 1 on a speaker with one style. -/
theorem main_out_of_range_witness :
    main (exampleWorld longWave) (exampleCfg 0 1 "") ["hello"] =
        ([.request (speakersRequest (exampleCfg 0 1 ""))], .fatal "style not found") ∧
      requests (main (exampleWorld longWave) (exampleCfg 0 1 "") ["hello"]).1 =
        [speakersRequest (exampleCfg 0 1 "")] :=
  main_out_of_range (exampleWorld longWave) (exampleCfg 0 1 "") ["hello"] exampleDir rfl
    (Or.inr ⟨by decide, exampleDir[0], rfl, by decide⟩)

/-- C3: after the four assignments the query has the four configured values in
its speed, pitch, intonation and volume fields, and every other field is the
one it had before. -/
theorem applyOverrides_fields (cfg : config) (p : Params) :
    (applyOverrides cfg p).SpeedScale = cfg.speed ∧
      (applyOverrides cfg p).PitchScale = cfg.pitch ∧
      (applyOverrides cfg p).IntonationScale = cfg.intonation ∧
      (applyOverrides cfg p).VolumeScale = cfg.volume ∧
      (applyOverrides cfg p).AccentPhrases = p.AccentPhrases ∧
      (applyOverrides cfg p).PrePhonemeLength = p.PrePhonemeLength ∧
      (applyOverrides cfg p).PostPhonemeLength = p.PostPhonemeLength ∧
      (applyOverrides cfg p).OutputSamplingRate = p.OutputSamplingRate ∧
      (applyOverrides cfg p).OutputStereo = p.OutputStereo ∧
      (applyOverrides cfg p).Kana = p.Kana :=
  ⟨rfl, rfl, rfl, rfl, rfl, rfl, rfl, rfl, rfl, rfl⟩

/-- C4 (as stated, refuted): a query document that carries a member the
structure does not declare decodes without error, and what `synth` encodes
from the decoded structure is a different document, in which that member is
missing. In a run, the body of the synthesis request is that shorter document. -/
theorem unknown_field_dropped :
    decodeParams exampleDocExtra = .ok (some exampleParams) ∧
      encodeParams (some exampleParams) = .ok exampleDoc ∧
      exampleDoc ≠ exampleDocExtra ∧
      "pauseLengthScale" ∈ exampleDocExtra.keys ∧
      "pauseLengthScale" ∉ exampleDoc.keys ∧
      requests (main extraWorld (exampleCfg 0 0 "out.wav") ["hello"]).1 =
        [speakersRequest (exampleCfg 0 0 "out.wav"),
          audioQueryRequest (exampleCfg 0 0 "out.wav") 7 "hello",
          synthesisRequest (exampleCfg 0 0 "out.wav") 7 exampleDoc] := by
  refine ⟨rfl, rfl, ?_, by decide, by decide, rfl⟩
  intro h
  exact absurd (congrArg Json.keys h) (by decide)

/-- C4 (amended): every document that `getQuery` decodes into a structure is
encoded back by `synth` without error into a document in which every object,
at every depth, has exactly the members its structure declares (`Params`,
`AccentPhrases`, `Mora`), in declaration order, so that no undeclared member
of the original is left anywhere in it. That document decodes into the same
structure (up to what the backing arrays hold past the length of the slices,
which nothing reads) and is encoded from it again unchanged; when the original
document is itself the encoding of a structure, the two documents are equal. -/
theorem reencoding_keeps_declared_fields (doc : Json) (p : Params)
    (hdec : decodeParams doc = .ok (some p)) :
    ∃ d, encodeParams (some p) = .ok d ∧ isParamsWire d = true ∧ d.keys = Params.tags ∧
      decodeParams d = .ok (some p.trim) ∧ encodeParams (some p.trim) = .ok d ∧
      (∀ q, q.valid = true → encodeParams (some q) = .ok doc → d = doc) := by
  have hv := decodeParams_valid doc p hdec
  obtain ⟨d, hd⟩ := encodeParamsValue_total p hv
  have hk : d.keys = Params.tags := by
    have hw := encodeParamsValue_wire p d hv hd
    unfold isParamsWire at hw
    rw [Bool.and_eq_true, decide_eq_true_eq] at hw
    exact hw.1
  refine ⟨d, hd, encodeParamsValue_wire p d hv hd, hk, decodeParams_encodeParamsValue p d hv hd,
    (encodeParamsValue_trim p).trans hd, ?_⟩
  intro q hq henc
  have h2 : decodeParams doc = .ok (some q.trim) := decodeParams_encodeParamsValue q doc hq henc
  rw [hdec] at h2
  cases h2
  have h3 : encodeParamsValue q.trim = .ok doc := (encodeParamsValue_trim q).trans henc
  rw [hd] at h3
  cases h3
  rfl

/-- Witness of `reencoding_keeps_declared_fields` on three documents: one with
undeclared members at three depths, which are not in the re-encoded document;
one that is the encoding of a structure, which is re-encoded as it is; one in
which a key occurs twice. -/
theorem reencoding_keeps_declared_fields_witness :
    (∃ d, encodeParams (some exampleParams) = .ok d ∧ isParamsWire d = true ∧
      d.keys = Params.tags ∧ decodeParams d = .ok (some exampleParams.trim) ∧
      encodeParams (some exampleParams.trim) = .ok d ∧
      (∀ q, q.valid = true → encodeParams (some q) = .ok exampleDocNested →
        d = exampleDocNested)) ∧
    (∃ d, encodeParams (some exampleParams) = .ok d ∧ isParamsWire d = true ∧
      d.keys = Params.tags ∧ decodeParams d = .ok (some exampleParams.trim) ∧
      encodeParams (some exampleParams.trim) = .ok d ∧ d = exampleDoc) ∧
    (∃ d, encodeParams (some exampleParamsRepeated) = .ok d ∧ isParamsWire d = true ∧
      d.keys = Params.tags ∧ decodeParams d = .ok (some exampleParamsRepeated.trim) ∧
      encodeParams (some exampleParamsRepeated.trim) = .ok d ∧
      (∀ q, q.valid = true → encodeParams (some q) = .ok exampleDocRepeated →
        d = exampleDocRepeated)) :=
  ⟨reencoding_keeps_declared_fields exampleDocNested exampleParams rfl,
    (reencoding_keeps_declared_fields exampleDoc exampleParams rfl).imp
      (fun _ h => ⟨h.1, h.2.1, h.2.2.1, h.2.2.2.1, h.2.2.2.2.1,
        h.2.2.2.2.2 exampleParams rfl rfl⟩),
    reencoding_keeps_declared_fields exampleDocRepeated exampleParamsRepeated rfl⟩

/-- C5: in playback mode, on a waveform of 10 bytes, the run performs the
three requests and then stops in the runtime panic of the slice expression
`b[44:]`; it does not end in a `log.Fatal` with an error. -/
theorem main_short_wave_panics :
    main (exampleWorld shortWave) (exampleCfg 0 0 "") ["hello"] =
      ([.request (speakersRequest (exampleCfg 0 0 "")), .log "A normal 7",
        .request (audioQueryRequest (exampleCfg 0 0 "") 7 "hello"),
        .request (synthesisRequest (exampleCfg 0 0 "") 7 exampleDoc)],
        .panic "slice bounds out of range") := by
  rfl

/-- C6: in playback mode, when synthesis returned `b` with at least 44 bytes,
every byte sequence handed to the player is `b` without its first 44 bytes,
that sequence is handed over once the device opens, its length is
`len(b) - 44`, and no file is written. -/
theorem playback_mode_skips_header (w : World) (cfg : config) (args : List String)
    (dir : Speakers) (spk : Speaker) (sty : Styles) (p : Params) (b : Bytes)
    (hdir : w.speakers (speakersRequest cfg) = .ok dir)
    (hsel : selectStyle dir cfg.speaker cfg.style = .ok (spk, sty))
    (hq : (getQuery w cfg sty.ID (" ".intercalate args)).2 = .ok (some p))
    (hs : (synth w cfg sty.ID (some (applyOverrides cfg p))).2 = .ok b)
    (hout : cfg.output = "") (hlen : 44 ≤ b.length) :
    (∀ d ∈ played (main w cfg args).1, d = b.drop 44) ∧
      (w.newContext p.OutputSamplingRate (if p.OutputStereo then 2 else 1) 2 3200 = none →
        played (main w cfg args).1 = [b.drop 44]) ∧
      (b.drop 44).length = b.length - 44 ∧
      written (main w cfg args).1 = [] := by
  obtain ⟨body, -, hsy⟩ := synth_ok_events w cfg sty.ID _ b hs
  have hgq := getQuery_ok_events w cfg sty.ID _ _ hq
  have hm := main_past_synth w cfg args dir spk sty p b hdir hsel hq hs
  have ho : output w cfg (applyOverrides cfg p) b =
      ((playback w (applyOverrides cfg p) (b.drop 44)).1,
        match (playback w (applyOverrides cfg p) (b.drop 44)).2 with
        | some e => .fatal e
        | none => .done) := by
    unfold output
    rw [hout, if_neg (by decide)]
    unfold sliceFrom?
    rw [if_pos hlen]
  have hpl : played (main w cfg args).1 =
      played (playback w (applyOverrides cfg p) (b.drop 44)).1 := by
    rw [hm, hgq, hsy, ho]
    simp [played]
  have hwr : written (main w cfg args).1 =
      written (playback w (applyOverrides cfg p) (b.drop 44)).1 := by
    rw [hm, hgq, hsy, ho]
    simp [written]
  have hp := playback_played w (applyOverrides cfg p) (b.drop 44)
  refine ⟨?_, ?_, by simp, ?_⟩
  · rw [hpl]
    exact hp.1
  · rw [hpl]
    exact hp.2
  · rw [hwr]
    exact playback_written w _ _

/-- Witness of `playback_mode_skips_header` on a waveform of 48 bytes. -/
theorem playback_mode_skips_header_witness :
    (∀ d ∈ played (main (exampleWorld longWave) (exampleCfg 0 0 "") ["hello"]).1,
        d = longWave.drop 44) ∧
      ((exampleWorld longWave).newContext exampleParams.OutputSamplingRate
          (if exampleParams.OutputStereo then 2 else 1) 2 3200 = none →
        played (main (exampleWorld longWave) (exampleCfg 0 0 "") ["hello"]).1 =
          [longWave.drop 44]) ∧
      (longWave.drop 44).length = longWave.length - 44 ∧
      written (main (exampleWorld longWave) (exampleCfg 0 0 "") ["hello"]).1 = [] :=
  playback_mode_skips_header (exampleWorld longWave) (exampleCfg 0 0 "") ["hello"] exampleDir
    exampleDir[0] exampleDir[0].Styles[0] exampleParams longWave rfl rfl rfl rfl rfl (by decide)

/-- C7: in file mode, when synthesis returned `b` (of any length), the one
file written is the configured path with contents exactly `b`, no effect of
the run is on the audio device, and the run ends normally unless the write
fails. -/
theorem file_mode_writes_all (w : World) (cfg : config) (args : List String)
    (dir : Speakers) (spk : Speaker) (sty : Styles) (p : Params) (b : Bytes)
    (hdir : w.speakers (speakersRequest cfg) = .ok dir)
    (hsel : selectStyle dir cfg.speaker cfg.style = .ok (spk, sty))
    (hq : (getQuery w cfg sty.ID (" ".intercalate args)).2 = .ok (some p))
    (hs : (synth w cfg sty.ID (some (applyOverrides cfg p))).2 = .ok b)
    (hout : cfg.output ≠ "") :
    written (main w cfg args).1 = [(cfg.output, b)] ∧
      (∀ e ∈ (main w cfg args).1, e.onDevice = false) ∧
      (main w cfg args).2 =
        (match w.writeFile cfg.output b 0o644 with
        | some e => .fatal e
        | none => .done) := by
  obtain ⟨body, -, hsy⟩ := synth_ok_events w cfg sty.ID _ b hs
  have hgq := getQuery_ok_events w cfg sty.ID _ _ hq
  have hm := main_past_synth w cfg args dir spk sty p b hdir hsel hq hs
  have ho : output w cfg (applyOverrides cfg p) b =
      ([.writeFile cfg.output b 0o644],
        match w.writeFile cfg.output b 0o644 with
        | some e => .fatal e
        | none => .done) := by
    unfold output
    rw [if_pos (length_pos_of_ne_empty _ hout)]
  rw [hm, hgq, hsy, ho]
  refine ⟨by simp [written], ?_, rfl⟩
  intro e he
  simp at he
  rcases he with rfl | rfl | rfl | rfl | rfl <;> rfl

/-- Witness of `file_mode_writes_all` on a waveform of 10 bytes. -/
theorem file_mode_writes_all_witness :
    written (main (exampleWorld shortWave) (exampleCfg 0 0 "out.wav") ["hello"]).1 =
        [((exampleCfg 0 0 "out.wav").output, shortWave)] ∧
      (∀ e ∈ (main (exampleWorld shortWave) (exampleCfg 0 0 "out.wav") ["hello"]).1,
        e.onDevice = false) ∧
      (main (exampleWorld shortWave) (exampleCfg 0 0 "out.wav") ["hello"]).2 =
        (match (exampleWorld shortWave).writeFile (exampleCfg 0 0 "out.wav").output shortWave
            0o644 with
        | some e => .fatal e
        | none => .done) :=
  file_mode_writes_all (exampleWorld shortWave) (exampleCfg 0 0 "out.wav") ["hello"] exampleDir
    exampleDir[0] exampleDir[0].Styles[0] exampleParams shortWave rfl rfl rfl rfl (by decide)

/-- C8: whenever a run sends a request to `<endpoint>/synthesis`, the
directory was fetched, the selection resolved a style from it, and the
requests of the run are exactly the directory request, the audio_query request
and this synthesis request. The `speaker` parameter of the last two is one and
the same string, the decimal numeral of the id of that one resolved style:
read as a decimal numeral, it is that id. -/
theorem same_style_id_in_both_requests (w : World) (cfg : config) (args : List String)
    (r : Request) (hr : r ∈ requests (main w cfg args).1)
    (hurl : r.url = cfg.endpoint ++ "/synthesis") :
    ∃ dir spk sty body,
      w.speakers (speakersRequest cfg) = .ok dir ∧
      selectStyle dir cfg.speaker cfg.style = .ok (spk, sty) ∧
      requests (main w cfg args).1 =
        [⟨"GET", cfg.endpoint ++ "/speakers", [], [], none⟩,
          ⟨"POST", cfg.endpoint ++ "/audio_query",
            [("speaker", toString sty.ID), ("text", " ".intercalate args)], [], none⟩,
          ⟨"POST", cfg.endpoint ++ "/synthesis", [("speaker", toString sty.ID)],
            [("Accept", "audio/wav"), ("Content-Type", "application/json")], some body⟩] ∧
      r = ⟨"POST", cfg.endpoint ++ "/synthesis", [("speaker", toString sty.ID)],
        [("Accept", "audio/wav"), ("Content-Type", "application/json")], some body⟩ ∧
      (audioQueryRequest cfg sty.ID (" ".intercalate args)).query.lookup "speaker" =
        some (toString sty.ID) ∧
      r.query.lookup "speaker" = some (toString sty.ID) ∧
      Atoi (toString sty.ID) = some sty.ID := by
  have hsp : r ≠ speakersRequest cfg := by
    intro h
    rw [h] at hurl
    exact url_speakers_ne _ hurl
  have haq : ∀ id text, r ≠ audioQueryRequest cfg id text := by
    intro id text h
    rw [h] at hurl
    exact url_audio_query_ne _ hurl
  cases hdir : w.speakers (speakersRequest cfg) with
  | error e =>
    rw [main_speakers_error w cfg args e hdir] at hr
    simp [requests] at hr
    exact absurd hr hsp
  | ok dir =>
    cases hsel : selectStyle dir cfg.speaker cfg.style with
    | error stop =>
      rw [main_stops_on_selection w cfg args dir stop hdir hsel] at hr
      simp [requests] at hr
      exact absurd hr hsp
    | ok pair =>
      obtain ⟨spk, sty⟩ := pair
      by_cases hq : ∃ p, (getQuery w cfg sty.ID (" ".intercalate args)).2 = .ok (some p)
      · obtain ⟨p, hq⟩ := hq
        rcases main_requests_of_query w cfg args dir spk sty p hdir hsel hq with h2 | ⟨body, -, h3⟩
        · rw [h2] at hr
          simp at hr
          rcases hr with h | h
          · exact absurd h hsp
          · exact absurd h (haq _ _)
        · have hr3 := hr
          rw [h3] at hr3
          simp at hr3
          rcases hr3 with h | h | h
          · exact absurd h hsp
          · exact absurd h (haq _ _)
          · refine ⟨dir, spk, sty, body, rfl, hsel, h3, h, rfl, ?_, Atoi_Itoa sty.ID⟩
            rw [h]
            rfl
      · have hq2 : ∀ p, (getQuery w cfg sty.ID (" ".intercalate args)).2 ≠ .ok (some p) :=
          fun p hp => hq ⟨p, hp⟩
        rw [main_query_stops w cfg args dir spk sty hdir hsel hq2] at hr
        rcases getQuery_events w cfg sty.ID (" ".intercalate args) with ⟨h0, -⟩ | h1
        · rw [h0] at hr
          simp [requests] at hr
          exact absurd hr hsp
        · rw [h1] at hr
          simp [requests] at hr
          rcases hr with h | h
          · exact absurd h hsp
          · exact absurd h (haq _ _)

/-- Witness of `same_style_id_in_both_requests`: the synthesis request of the
end-to-end scenario carries `speaker=7`, as does its audio_query request. -/
theorem same_style_id_in_both_requests_witness :
    ∃ dir spk sty body,
      (exampleWorld shortWave).speakers (speakersRequest (exampleCfg 0 0 "out.wav")) = .ok dir ∧
      selectStyle dir (exampleCfg 0 0 "out.wav").speaker (exampleCfg 0 0 "out.wav").style =
        .ok (spk, sty) ∧
      requests (main (exampleWorld shortWave) (exampleCfg 0 0 "out.wav") ["hello"]).1 =
        [⟨"GET", (exampleCfg 0 0 "out.wav").endpoint ++ "/speakers", [], [], none⟩,
          ⟨"POST", (exampleCfg 0 0 "out.wav").endpoint ++ "/audio_query",
            [("speaker", toString sty.ID), ("text", " ".intercalate ["hello"])], [], none⟩,
          ⟨"POST", (exampleCfg 0 0 "out.wav").endpoint ++ "/synthesis",
            [("speaker", toString sty.ID)],
            [("Accept", "audio/wav"), ("Content-Type", "application/json")], some body⟩] ∧
      synthesisRequest (exampleCfg 0 0 "out.wav") 7 exampleDoc =
        ⟨"POST", (exampleCfg 0 0 "out.wav").endpoint ++ "/synthesis",
          [("speaker", toString sty.ID)],
          [("Accept", "audio/wav"), ("Content-Type", "application/json")], some body⟩ ∧
      (audioQueryRequest (exampleCfg 0 0 "out.wav") sty.ID
        (" ".intercalate ["hello"])).query.lookup "speaker" = some (toString sty.ID) ∧
      (synthesisRequest (exampleCfg 0 0 "out.wav") 7 exampleDoc).query.lookup "speaker" =
        some (toString sty.ID) ∧
      Atoi (toString sty.ID) = some sty.ID :=
  same_style_id_in_both_requests (exampleWorld shortWave) (exampleCfg 0 0 "out.wav") ["hello"]
    (synthesisRequest (exampleCfg 0 0 "out.wav") 7 exampleDoc)
    (List.Mem.tail _ (List.Mem.tail _ (List.Mem.head _))) rfl

/-- C9: whatever the query and the bytes, `playback` opens the device exactly
once, with the query's output sampling rate, 1 channel when the stereo flag is
false and 2 when it is true, and a sample width of 2 bytes. -/
theorem playback_opens_device (w : World) (p : Params) (b : Bytes) :
    opened (playback w p b).1 =
        [(p.OutputSamplingRate, if p.OutputStereo then 2 else 1, 2, 3200)] ∧
      (playback w p b).1.head? =
        some (.newContext p.OutputSamplingRate (if p.OutputStereo then 2 else 1) 2 3200) := by
  unfold playback
  dsimp only
  cases w.newContext p.OutputSamplingRate (if p.OutputStereo then 2 else 1) 2 3200 with
  | some e => exact ⟨rfl, rfl⟩
  | none =>
    dsimp only
    cases w.copyToPlayer b with
    | some e => exact ⟨rfl, rfl⟩
    | none =>
      dsimp only
      cases w.playerClose <;> exact ⟨rfl, rfl⟩

/-- C10: with `-speaker -1` the range check `cfg.speaker >= len(speakers)`
lets the index through and the run stops in the runtime panic of
`speakers[cfg.speaker]`, not with "speaker not found". -/
theorem main_negative_speaker_panics :
    selectStyle exampleDir (-1) 0 = .error (.panic "index out of range") ∧
      main (exampleWorld longWave) (exampleCfg (-1) 0 "") ["hello"] =
        ([.request (speakersRequest (exampleCfg (-1) 0 ""))], .panic "index out of range") :=
  ⟨rfl, rfl⟩

end VoicevoxCli
